import Mathlib

/-!
Verification development for the ownership-transfer engine of
`src/game.cpp` (The Forgotten Server downgrade): the item transfer
engine (`internalMoveItem`, `internalAddItem`, `internalRemoveItem`),
the creature single-step elevation logic (`internalMoveCreature`) and
the bucketed decay scheduler (`checkDecay` / `cleanup`).

Cylinder (holder) implementations, `game.h`, `map.h` and `position.h`
are not part of the excerpt; where their behaviour is needed it is
modelled from the specification and marked as such in doc comments.
-/

set_option linter.unusedVariables false

namespace TFS

/-- Modelled from the spec: the decay scheduler tick interval in
milliseconds. The constant `EVENT_DECAYINTERVAL` is declared in
`game.h`, which is absent from the excerpt; upstream The Forgotten
Server declares it as 250. -/
def EVENT_DECAYINTERVAL : Nat := 250

/-- Modelled from the spec: the number of decay buckets (slots of the
timer ring). The constant `EVENT_DECAY_BUCKETS` is declared in
`game.h`, which is absent from the excerpt; upstream The Forgotten
Server declares it as 4. -/
def EVENT_DECAY_BUCKETS : Nat := 4

/-- Relevant state of one item enrolled in the decay scheduler:
its identity, its remaining duration in milliseconds
(`Item::getDuration`) and whether it can still decay
(`Item::canDecay`). -/
structure DecayEntry where
  id : Nat
  duration : Nat
  canDecay : Bool
deriving DecidableEq, Repr

/-- State of the decay scheduler: the index of the bucket processed by
the previous tick (`Game::lastBucket`) and the ring of buckets
(`Game::decayItems`), kept as a list of length `EVENT_DECAY_BUCKETS`. -/
structure DecaySched where
  lastBucket : Nat
  buckets : List (List DecayEntry)
deriving DecidableEq, Repr

/-- Body of the while loop of `Game::checkDecay` (game.cpp:4550-4583)
applied to the entries of the bucket under processing. Returns the
entries kept in place, the entries pushed into other buckets (paired
with the target bucket index), and the ids of the items handed to
`internalDecayItem` (transformation or removal). Items that can no
longer decay are dropped (released) without decaying. -/
def processEntries (bucket : Nat) : List DecayEntry → List DecayEntry × List (Nat × DecayEntry) × List Nat
  | [] => ([], [], [])
  | e :: rest =>
    if e.canDecay = false then
      processEntries bucket rest
    else
      let decreaseTime := min (EVENT_DECAYINTERVAL * EVENT_DECAY_BUCKETS) e.duration
      let dur := e.duration - decreaseTime
      if dur = 0 then
        let r := processEntries bucket rest
        (r.1, r.2.1, e.id :: r.2.2)
      else if dur < EVENT_DECAYINTERVAL * EVENT_DECAY_BUCKETS then
        let newBucket := (bucket + (dur + EVENT_DECAYINTERVAL / 2) / 1000) % EVENT_DECAY_BUCKETS
        if newBucket = bucket then
          let r := processEntries bucket rest
          (r.1, r.2.1, e.id :: r.2.2)
        else
          let r := processEntries bucket rest
          (r.1, (newBucket, { e with duration := dur }) :: r.2.1, r.2.2)
      else
        let r := processEntries bucket rest
        ({ e with duration := dur } :: r.1, r.2.1, r.2.2)

/-- One scheduler tick, `Game::checkDecay` (game.cpp:4544-4587): advance
to the next bucket, process its entries, distribute the re-bucketed
entries, and record the processed bucket in `lastBucket`. Returns the
new state and the ids decayed during this tick. -/
def checkDecayStep (s : DecaySched) : DecaySched × List Nat :=
  let bucket := (s.lastBucket + 1) % EVENT_DECAY_BUCKETS
  let r := processEntries bucket (s.buckets.getD bucket [])
  let bs := s.buckets.set bucket r.1
  let bs := r.2.1.foldl (fun acc p => acc.set p.1 (acc.getD p.1 [] ++ [p.2])) bs
  (⟨bucket, bs⟩, r.2.2)

/-- Enrollment of a pending decay item into a bucket, from
`Game::cleanup` (game.cpp:4660-4667): a duration of at least one full
rotation goes into the bucket just processed, a smaller one into the
bucket `(lastBucket + 1 + duration / 1000) % EVENT_DECAY_BUCKETS`. -/
def enrollDecay (s : DecaySched) (e : DecayEntry) : DecaySched :=
  if EVENT_DECAYINTERVAL * EVENT_DECAY_BUCKETS ≤ e.duration then
    { s with buckets := s.buckets.set s.lastBucket (s.buckets.getD s.lastBucket [] ++ [e]) }
  else
    let b := (s.lastBucket + 1 + e.duration / 1000) % EVENT_DECAY_BUCKETS
    { s with buckets := s.buckets.set b (s.buckets.getD b [] ++ [e]) }

/-- Iterated scheduler ticks, accumulating the decayed ids in order. -/
def runTicks : Nat → DecaySched → DecaySched × List Nat
  | 0, s => (s, [])
  | n + 1, s =>
    let r := checkDecayStep s
    let r2 := runTicks n r.1
    (r2.1, r.2 ++ r2.2)

/-- Scheduler state with all buckets empty and a given last processed
bucket index. -/
def emptySchedAt (lastBucket : Nat) : DecaySched :=
  ⟨lastBucket, [[], [], [], []]⟩

/-- Ceiling division, used to state the claimed decay deadline. -/
def ceilDiv (a b : Nat) : Nat := (a + b - 1) / b

/-- Item `e`, enrolled alone into an otherwise empty scheduler whose
last processed bucket is `lastBucket`, has decayed within `n` ticks. -/
def decaysWithin (e : DecayEntry) (lastBucket n : Nat) : Prop :=
  e.id ∈ (runTicks n (enrollDecay (emptySchedAt lastBucket) e)).2

instance (e : DecayEntry) (lastBucket n : Nat) : Decidable (decaysWithin e lastBucket n) := by
  unfold decaysWithin; infer_instance

theorem runTicks_add (a b : Nat) (s : DecaySched) :
    runTicks (a + b) s =
      ((runTicks b (runTicks a s).1).1, (runTicks a s).2 ++ (runTicks b (runTicks a s).1).2) := by
  induction a generalizing s with
  | zero => simp [runTicks]
  | succ n ih =>
    have : n + 1 + b = (n + b) + 1 := by omega
    rw [this]
    simp only [runTicks]
    rw [ih]
    simp [List.append_assoc]

theorem decaysWithin_mono (e : DecayEntry) (L n m : Nat) (hnm : n ≤ m)
    (h : decaysWithin e L n) : decaysWithin e L m := by
  unfold decaysWithin at h ⊢
  obtain ⟨k, rfl⟩ := Nat.exists_eq_add_of_le hnm
  rw [runTicks_add]
  exact List.mem_append_left _ h

theorem rotationMs : EVENT_DECAYINTERVAL * EVENT_DECAY_BUCKETS = 1000 := rfl

theorem halfTick : EVENT_DECAYINTERVAL / 2 = 125 := rfl

theorem getD_set_self (l : List (List DecayEntry)) (i : Nat) (h : i < l.length)
    (x : List DecayEntry) : (l.set i x).getD i [] = x := by
  simp [List.getD_eq_getElem?_getD, List.getElem?_set_self h]

theorem getD_set_ne (l : List (List DecayEntry)) (i j : Nat) (x : List DecayEntry)
    (h : i ≠ j) : (l.set i x).getD j [] = l.getD j [] := by
  simp [List.getD_eq_getElem?_getD, List.getElem?_set_ne h]

theorem getD_fourEmpty (m : Nat) (hm : m < 4) :
    ([[], [], [], []] : List (List DecayEntry)).getD m [] = [] := by
  interval_cases m <;> rfl

/-- Invariant used to track a single enrolled item: the scheduler has
exactly four buckets, the item's entry sits alone in bucket `B`, and
every other bucket is empty. -/
def SoleAtPos (s : DecaySched) (B : Nat) (e : DecayEntry) : Prop :=
  s.lastBucket < 4 ∧ B < 4 ∧ s.buckets.length = 4 ∧
  s.buckets.getD B [] = [e] ∧
  ∀ m, m < 4 → m ≠ B → s.buckets.getD m [] = []

theorem step_skip (s : DecaySched) (B : Nat) (e : DecayEntry) (h : SoleAtPos s B e)
    (hb : (s.lastBucket + 1) % 4 ≠ B) :
    checkDecayStep s =
      (⟨(s.lastBucket + 1) % 4, s.buckets.set ((s.lastBucket + 1) % 4) []⟩, []) := by
  obtain ⟨hl, hB, hlen, hcur, hemp⟩ := h
  simp only [checkDecayStep, EVENT_DECAY_BUCKETS]
  rw [hemp _ (by omega) hb]
  simp [processEntries]

theorem step_skip_sole (s : DecaySched) (B : Nat) (e : DecayEntry) (h : SoleAtPos s B e)
    (hb : (s.lastBucket + 1) % 4 ≠ B) :
    SoleAtPos ⟨(s.lastBucket + 1) % 4, s.buckets.set ((s.lastBucket + 1) % 4) []⟩ B e := by
  obtain ⟨hl, hB, hlen, hcur, hemp⟩ := h
  refine ⟨by show (s.lastBucket + 1) % 4 < 4; omega, hB, by simp [hlen], ?_, ?_⟩
  · rw [getD_set_ne _ _ _ _ hb]; exact hcur
  · intro m hm hmB
    by_cases hmb : m = (s.lastBucket + 1) % 4
    · subst hmb; rw [getD_set_self _ _ (by omega) _]
    · rw [getD_set_ne _ _ _ _ (fun hx => hmb hx.symm)]; exact hemp m hm hmB

theorem step_decayNow (s : DecaySched) (B i d : Nat) (h : SoleAtPos s B ⟨i, d, true⟩)
    (hb : (s.lastBucket + 1) % 4 = B) (h1 : 1 ≤ d) (h2 : d < 1875) :
    checkDecayStep s = (⟨B, s.buckets.set B []⟩, [i]) := by
  obtain ⟨hl, hB, hlen, hcur, hemp⟩ := h
  simp only [checkDecayStep, EVENT_DECAY_BUCKETS, EVENT_DECAYINTERVAL]
  rw [hb, hcur]
  by_cases hc : d ≤ 1000
  · simp only [processEntries, EVENT_DECAY_BUCKETS, EVENT_DECAYINTERVAL]
    rw [if_neg (by simp), if_pos (by omega)]
    simp [processEntries]
  · simp only [processEntries, EVENT_DECAY_BUCKETS, EVENT_DECAYINTERVAL]
    rw [if_neg (by simp), if_neg (by omega), if_pos (by omega), if_pos (by omega)]
    simp [processEntries]

theorem step_move (s : DecaySched) (B i d : Nat) (h : SoleAtPos s B ⟨i, d, true⟩)
    (hb : (s.lastBucket + 1) % 4 = B) (h1 : 1875 ≤ d) (h2 : d < 2000) :
    checkDecayStep s =
      (⟨B, (s.buckets.set B []).set ((B + 1) % 4)
          [⟨i, d - 1000, true⟩]⟩, []) := by
  obtain ⟨hl, hB, hlen, hcur, hemp⟩ := h
  simp only [checkDecayStep, EVENT_DECAY_BUCKETS, EVENT_DECAYINTERVAL]
  rw [hb, hcur]
  simp only [processEntries, EVENT_DECAY_BUCKETS, EVENT_DECAYINTERVAL]
  rw [if_neg (by simp), if_neg (by omega), if_pos (by omega), if_neg (by omega)]
  have hmin : min (250 * 4) d = 1000 := by omega
  have hdiv : (B + (d - 1000 + 250 / 2) / 1000) % 4 = (B + 1) % 4 := by omega
  simp only [processEntries, hmin, List.foldl]
  rw [getD_set_ne _ _ _ _ (by omega)]
  rw [hdiv, hemp ((B + 1) % 4) (by omega) (by omega)]
  simp

theorem step_keep (s : DecaySched) (B i d : Nat) (h : SoleAtPos s B ⟨i, d, true⟩)
    (hb : (s.lastBucket + 1) % 4 = B) (h1 : 2000 ≤ d) :
    checkDecayStep s = (⟨B, s.buckets.set B [⟨i, d - 1000, true⟩]⟩, []) := by
  obtain ⟨hl, hB, hlen, hcur, hemp⟩ := h
  simp only [checkDecayStep, EVENT_DECAY_BUCKETS, EVENT_DECAYINTERVAL]
  rw [hb, hcur]
  simp only [processEntries, EVENT_DECAY_BUCKETS, EVENT_DECAYINTERVAL]
  rw [if_neg (by simp), if_neg (by omega), if_neg (by omega)]
  have hmin : min (250 * 4) d = 1000 := by omega
  simp [processEntries, hmin]
theorem step_keep_sole (s : DecaySched) (B i d : Nat) (h : SoleAtPos s B ⟨i, d, true⟩)
    (hb : (s.lastBucket + 1) % 4 = B) :
    SoleAtPos ⟨B, s.buckets.set B [⟨i, d - 1000, true⟩]⟩ B ⟨i, d - 1000, true⟩ := by
  obtain ⟨hl, hB, hlen, hcur, hemp⟩ := h
  refine ⟨by show B < 4; omega, hB, by simp [hlen], ?_, ?_⟩
  · rw [getD_set_self _ _ (by omega)]
  · intro m hm hmB
    rw [getD_set_ne _ _ _ _ (fun hx => hmB hx.symm)]
    exact hemp m hm hmB

theorem step_move_sole (s : DecaySched) (B i d : Nat) (h : SoleAtPos s B ⟨i, d, true⟩)
    (hb : (s.lastBucket + 1) % 4 = B) :
    SoleAtPos ⟨B, (s.buckets.set B []).set ((B + 1) % 4) [⟨i, d - 1000, true⟩]⟩
      ((B + 1) % 4) ⟨i, d - 1000, true⟩ := by
  obtain ⟨hl, hB, hlen, hcur, hemp⟩ := h
  refine ⟨by show B < 4; omega, by omega, by simp [hlen], ?_, ?_⟩
  · rw [getD_set_self _ _ (by simp [hlen]; omega)]
  · intro m hm hmB1
    rw [getD_set_ne _ _ _ _ (fun hx => hmB1 hx.symm)]
    by_cases hmB : m = B
    · subst hmB; rw [getD_set_self _ _ (by omega)]
    · rw [getD_set_ne _ _ _ _ (fun hx => hmB hx.symm)]
      exact hemp m hm hmB

theorem runTicks_one (s : DecaySched) :
    runTicks 1 s = ((checkDecayStep s).1, (checkDecayStep s).2) := by
  simp [runTicks]

theorem mem_runTicks_mono (x : Nat) (s : DecaySched) (n m : Nat) (hnm : n ≤ m)
    (h : x ∈ (runTicks n s).2) : x ∈ (runTicks m s).2 := by
  obtain ⟨k, rfl⟩ := Nat.exists_eq_add_of_le hnm
  rw [runTicks_add]
  exact List.mem_append_left _ h

theorem run_skip (k : Nat) : ∀ (s : DecaySched) (B : Nat) (e : DecayEntry), SoleAtPos s B e →
    (∀ j, j < k → (s.lastBucket + 1 + j) % 4 ≠ B) →
    (runTicks k s).2 = [] ∧ SoleAtPos (runTicks k s).1 B e ∧
      (runTicks k s).1.lastBucket = (s.lastBucket + k) % 4 := by
  induction k with
  | zero =>
    intro s B e h _
    exact ⟨rfl, h, by show s.lastBucket = (s.lastBucket + 0) % 4; have := h.1; omega⟩
  | succ n ih =>
    intro s B e h hj
    have hne : (s.lastBucket + 1) % 4 ≠ B := by
      have := hj 0 (by omega)
      omega
    have hstep := step_skip s B e h hne
    have hsole := step_skip_sole s B e h hne
    rw [show n + 1 = 1 + n from by omega, runTicks_add, runTicks_one, hstep]
    simp only
    obtain ⟨ha, hb', hc⟩ := ih _ B e hsole (by
      intro j hjn
      have := hj (j + 1) (by omega)
      show ((s.lastBucket + 1) % 4 + 1 + j) % 4 ≠ B
      omega)
    refine ⟨by simpa using ha, hb', ?_⟩
    rw [hc]
    show ((s.lastBucket + 1) % 4 + n) % 4 = (s.lastBucket + (1 + n)) % 4
    omega

theorem run4_keep (s : DecaySched) (B i d : Nat) (h : SoleAtPos s B ⟨i, d, true⟩)
    (hfix : s.lastBucket = B) (hd : 2000 ≤ d) :
    (runTicks 4 s).2 = [] ∧ SoleAtPos (runTicks 4 s).1 B ⟨i, d - 1000, true⟩ ∧
      (runTicks 4 s).1.lastBucket = B := by
  have hB := h.2.1
  obtain ⟨hev3, hsole3, hlb3⟩ := run_skip 3 s B _ h (by intro j hjn; omega)
  have hb4 : ((runTicks 3 s).1.lastBucket + 1) % 4 = B := by rw [hlb3]; omega
  have hstep := step_keep _ B i d hsole3 hb4 hd
  have hsole4 := step_keep_sole _ B i d hsole3 hb4
  rw [show (4 : Nat) = 3 + 1 from rfl, runTicks_add, runTicks_one, hstep]
  exact ⟨by simp [hev3], hsole4, rfl⟩

theorem run4_move (s : DecaySched) (B i d : Nat) (h : SoleAtPos s B ⟨i, d, true⟩)
    (hfix : s.lastBucket = B) (h1 : 1875 ≤ d) (h2 : d < 2000) :
    (runTicks 4 s).2 = [] ∧ SoleAtPos (runTicks 4 s).1 ((B + 1) % 4) ⟨i, d - 1000, true⟩ ∧
      (runTicks 4 s).1.lastBucket = B := by
  have hB := h.2.1
  obtain ⟨hev3, hsole3, hlb3⟩ := run_skip 3 s B _ h (by intro j hjn; omega)
  have hb4 : ((runTicks 3 s).1.lastBucket + 1) % 4 = B := by rw [hlb3]; omega
  have hstep := step_move _ B i d hsole3 hb4 h1 h2
  have hsole4 := step_move_sole _ B i d hsole3 hb4
  rw [show (4 : Nat) = 3 + 1 from rfl, runTicks_add, runTicks_one, hstep]
  exact ⟨by simp [hev3], hsole4, rfl⟩

theorem run4_decay (s : DecaySched) (B i d : Nat) (h : SoleAtPos s B ⟨i, d, true⟩)
    (hfix : s.lastBucket = B) (h1 : 1 ≤ d) (h2 : d < 1875) :
    i ∈ (runTicks 4 s).2 := by
  have hB := h.2.1
  obtain ⟨hev3, hsole3, hlb3⟩ := run_skip 3 s B _ h (by intro j hjn; omega)
  have hb4 : ((runTicks 3 s).1.lastBucket + 1) % 4 = B := by rw [hlb3]; omega
  have hstep := step_decayNow _ B i d hsole3 hb4 h1 h2
  rw [show (4 : Nat) = 3 + 1 from rfl, runTicks_add, runTicks_one, hstep]
  simp [hev3]

theorem enroll_small_sole (L i d : Nat) (hL : L < 4) (hd : d < 1000) :
    SoleAtPos (enrollDecay (emptySchedAt L) ⟨i, d, true⟩) ((L + 1) % 4) ⟨i, d, true⟩ ∧
      (enrollDecay (emptySchedAt L) ⟨i, d, true⟩).lastBucket = L := by
  unfold enrollDecay emptySchedAt
  rw [if_neg (by simp only [EVENT_DECAYINTERVAL, EVENT_DECAY_BUCKETS]; omega)]
  have hb : (L + 1 + (⟨i, d, true⟩ : DecayEntry).duration / 1000) % EVENT_DECAY_BUCKETS
      = (L + 1) % 4 := by
    simp only [EVENT_DECAY_BUCKETS]
    omega
  simp only [hb]
  rw [getD_fourEmpty _ (by omega)]
  refine ⟨⟨by show L < 4; omega, by omega, by simp, ?_, ?_⟩, by trivial⟩
  · rw [getD_set_self _ _ (by simp; omega)]
    simp
  · intro m hm hmB
    rw [getD_set_ne _ _ _ _ (fun hx => hmB hx.symm)]
    exact getD_fourEmpty m hm

theorem enroll_large_sole (L i d : Nat) (hL : L < 4) (hd : 1000 ≤ d) :
    SoleAtPos (enrollDecay (emptySchedAt L) ⟨i, d, true⟩) L ⟨i, d, true⟩ ∧
      (enrollDecay (emptySchedAt L) ⟨i, d, true⟩).lastBucket = L := by
  unfold enrollDecay emptySchedAt
  rw [if_pos (by simp only [EVENT_DECAYINTERVAL, EVENT_DECAY_BUCKETS]; omega)]
  rw [getD_fourEmpty _ (by show L < 4; omega)]
  refine ⟨⟨by show L < 4; omega, by omega, by simp, ?_, ?_⟩, by trivial⟩
  · rw [getD_set_self _ _ (by simp; omega)]
    simp
  · intro m hm hmB
    rw [getD_set_ne _ _ _ _ (fun hx => hmB hx.symm)]
    exact getD_fourEmpty m hm

theorem decay_bound_self (d : Nat) : ∀ (s : DecaySched) (B i : Nat), 1000 ≤ d →
    SoleAtPos s B ⟨i, d, true⟩ → s.lastBucket = B →
    i ∈ (runTicks (ceilDiv d EVENT_DECAYINTERVAL) s).2 := by
  induction d using Nat.strong_induction_on with
  | _ d ih =>
    intro s B i hd h hfix
    by_cases hc1 : d < 1875
    · have hmem := run4_decay s B i d h hfix (by omega) hc1
      exact mem_runTicks_mono i s 4 (ceilDiv d EVENT_DECAYINTERVAL)
        (by simp only [ceilDiv, EVENT_DECAYINTERVAL]; omega) hmem
    · by_cases hc2 : d < 2000
      · obtain ⟨hev4, hsole4, hlb4⟩ := run4_move s B i d h hfix (by omega) hc2
        have hB := h.2.1
        have hb5 : ((runTicks 4 s).1.lastBucket + 1) % 4 = (B + 1) % 4 := by rw [hlb4]
        have hstep := step_decayNow _ ((B + 1) % 4) i (d - 1000) hsole4 hb5
          (by omega) (by omega)
        have hmem : i ∈ (runTicks (4 + 1) s).2 := by
          rw [runTicks_add, runTicks_one, hstep]
          simp [hev4]
        exact mem_runTicks_mono i s 5 (ceilDiv d EVENT_DECAYINTERVAL)
          (by simp only [ceilDiv, EVENT_DECAYINTERVAL]; omega) hmem
      · obtain ⟨hev4, hsole4, hlb4⟩ := run4_keep s B i d h hfix (by omega)
        have hrec := ih (d - 1000) (by omega) (runTicks 4 s).1 B i (by omega) hsole4 hlb4
        have hmem : i ∈ (runTicks (4 + ceilDiv (d - 1000) EVENT_DECAYINTERVAL) s).2 := by
          rw [runTicks_add]
          exact List.mem_append_right _ hrec
        have heq : 4 + ceilDiv (d - 1000) EVENT_DECAYINTERVAL = ceilDiv d EVENT_DECAYINTERVAL := by
          simp only [ceilDiv, EVENT_DECAYINTERVAL]
          omega
        rwa [heq] at hmem

theorem decay_within_bound (i d L : Nat) (hL : L < 4) (hd : 1 ≤ d) :
    decaysWithin ⟨i, d, true⟩ L (ceilDiv d EVENT_DECAYINTERVAL) := by
  unfold decaysWithin
  by_cases hc : d < 1000
  · obtain ⟨hsole, hlb⟩ := enroll_small_sole L i d hL hc
    have hb : ((enrollDecay (emptySchedAt L) ⟨i, d, true⟩).lastBucket + 1) % 4 = (L + 1) % 4 := by
      rw [hlb]
    have hstep := step_decayNow _ ((L + 1) % 4) i d hsole hb hd (by omega)
    have hmem : i ∈ (runTicks 1 (enrollDecay (emptySchedAt L) ⟨i, d, true⟩)).2 := by
      rw [runTicks_one, hstep]
      simp
    exact mem_runTicks_mono i _ 1 (ceilDiv d EVENT_DECAYINTERVAL)
      (by simp only [ceilDiv, EVENT_DECAYINTERVAL]; omega) hmem
  · obtain ⟨hsole, hlb⟩ := enroll_large_sole L i d hL (by omega)
    exact decay_bound_self d _ L i (by omega) hsole hlb
/-! ## Transfer engine: world model -/

/-- Outcome codes (enum `ReturnValue`). Only the codes the claims
distinguish are named; any other code is `other n`. -/
inductive ReturnValue where
  | noError
  | notPossible
  | notEnoughRoom
  | needExchange
  | other (n : Nat)
deriving DecidableEq, Repr

/-- Relevant state of an item (class `Item`): identity, type id, the
attribute blob compared by `Item::equals`, stack count
(`Item::getItemCount`, 1 for a non-stackable item), stackability and
stack limit (`Item::getStackSize`), remaining decay duration, decay
state flag and the removability used by `Item::canRemove`. -/
structure ItemT where
  id : Nat
  itemType : Nat
  attrs : Nat
  count : Nat
  stackable : Bool
  stackSize : Nat
  duration : Nat
  decaying : Bool
  canDecay : Bool
  canRemove : Bool
deriving DecidableEq, Repr

/-- Modelled from the spec: `Item::equals` (absent from the excerpt)
holds for items of the same type, attributes and sub-type. -/
def itemEquals (a b : ItemT) : Bool :=
  a.itemType == b.itemType && a.attrs == b.attrs

/-- Notifications and lifecycle events fired by the transfer engine. -/
inductive Event where
  | postAdd (cyl iid : Nat)
  | postRemove (cyl iid : Nat)
  | onRemovedEv (iid : Nat)
  | release (iid : Nat)
  | decayEnroll (iid : Nat)
  | itemMoved (iid : Nat)
deriving DecidableEq, Repr

/-- World state: cylinder contents keyed by cylinder id; the static
holder topology read by the trade-escrow check (`Cylinder::getItem` of
each cylinder, and the item ids found on its parent chain, nearest
first); the decay ring and pending list (`Game::decayItems`,
`Game::toDecayItems`); and a counter supplying fresh ids for clones. -/
structure World where
  cyls : List (Nat × List ItemT)
  cylItemOf : List (Nat × Nat)
  ancItems : List (Nat × List Nat)
  decayBuckets : List (List Nat)
  toDecayItems : List Nat
  nextId : Nat
deriving DecidableEq, Repr

def getC : List (Nat × List ItemT) → Nat → List ItemT
  | [], _ => []
  | (c, its) :: rest, cyl => if c = cyl then its else getC rest cyl

def setC : List (Nat × List ItemT) → Nat → List ItemT → List (Nat × List ItemT)
  | [], _, _ => []
  | (c, its) :: rest, cyl, new =>
    if c = cyl then (c, new) :: rest else (c, its) :: setC rest cyl new

def World.contents (w : World) (c : Nat) : List ItemT := getC w.cyls c

def World.setContents (w : World) (c : Nat) (its : List ItemT) : World :=
  { w with cyls := setC w.cyls c its }

/-- Index of an item inside a holder, `Cylinder::getThingIndex`:
the position of the item, or -1 when the holder does not hold it. -/
def getThingIndex (w : World) (c iid : Nat) : Int :=
  match (w.contents c).findIdx? (fun it => it.id == iid) with
  | some n => (n : Int)
  | none => -1

def World.findIn (w : World) (c iid : Nat) : Option ItemT :=
  (w.contents c).find? (fun it => it.id == iid)

/-- Item is held by no cylinder (`Thing::isRemoved`). -/
def World.isRemoved (w : World) (iid : Nat) : Bool :=
  w.cyls.all (fun p => p.2.all (fun it => it.id != iid))

/-- Own item of a container cylinder, `Cylinder::getItem`. -/
def cylOwnItem (w : World) (c : Nat) : Option Nat :=
  (w.cylItemOf.find? (fun p => p.1 == c)).map (fun p => p.2)

/-- Item ids of the cylinders on the parent chain of `c`, walked by the
trade-escrow loop of game.cpp:1165-1172 (nearest ancestor first). The
chain is stored explicitly, reflecting that holders form a finite tree. -/
def ancestorItems (w : World) (c : Nat) : List Nat :=
  ((w.ancItems.find? (fun p => p.1 == c)).map (fun p => p.2)).getD []

/-- Modelled from the spec: `removeThing` of the holder protocol
(implementations absent from the excerpt) removes a quantity from an
item: a stackable item keeps its slot with a reduced count when fewer
than all of its units are removed, otherwise the item leaves the
holder. -/
def removeFromList (iid m : Nat) (its : List ItemT) : List ItemT :=
  its.foldr (fun it acc =>
    if it.id = iid then
      if it.stackable && decide (m < it.count) then { it with count := it.count - m } :: acc
      else acc
    else it :: acc) []

def removeThing (w : World) (c iid m : Nat) : World :=
  w.setContents c (removeFromList iid m (w.contents c))

/-- Modelled from the spec: `addThing` of the holder protocol inserts a
thing into the holder; the index placement inside the holder is not
observable to the claims, so the thing is appended. -/
def addThing (w : World) (c : Nat) (it : ItemT) : World :=
  w.setContents c (w.contents c ++ [it])

/-- Modelled from the spec: `updateThing` of the holder protocol
updates a stack's type id and count in place. -/
def updateList (iid newType newCount : Nat) (its : List ItemT) : List ItemT :=
  its.map (fun it =>
    if it.id = iid then { it with itemType := newType, count := newCount } else it)

def updateThing (w : World) (c iid newType newCount : Nat) : World :=
  w.setContents c (updateList iid newType newCount (w.contents c))

/-- Marks the stored copy of an item as decaying
(`Item::setDecaying(DECAYING_TRUE)`). -/
def setDecayingList (iid : Nat) (its : List ItemT) : List ItemT :=
  its.map (fun it => if it.id = iid then { it with decaying := true } else it)

def setDecayingIn (w : World) (c iid : Nat) : World :=
  w.setContents c (setDecayingList iid (w.contents c))

/-- Total count of the items of a holder equal (in the `Item::equals`
sense) to a prototype item. -/
def countOf (its : List ItemT) (proto : ItemT) : Nat :=
  its.foldr (fun it acc => if itemEquals proto it then it.count + acc else acc) 0

def World.totalOf (w : World) (c : Nat) (proto : ItemT) : Nat :=
  countOf (w.contents c) proto

/-- Modelled from the spec: sentinel index meaning "anywhere in the
holder" (`INDEX_WHEREEVER`, declared in `cylinder.h`, absent from the
excerpt; upstream value -1). -/
def INDEX_WHEREEVER : Int := -1

/-- Modelled from the spec: the maximum nesting depth bound that caps
the `queryDestination` descent. `MAP_MAX_LAYERS` is declared in
`map.h`, absent from the excerpt; upstream value 16. -/
def MAP_MAX_LAYERS : Nat := 16

/-- Modelled from the spec: the query half of the holder protocol
(`queryAdd`, `queryMaxCount`, `queryRemove`, `queryDestination`) is
implemented by the tile / inventory / container classes, which are
absent from the excerpt. A `Policy` packages such side-effect-free
implementations, and `game.cpp` is verified over an arbitrary policy.
`hookOnMoveItem` and `hookOnMoveItemExchange` model the outcomes of the
`g_events->eventPlayerOnMoveItem` callbacks. -/
structure Policy where
  queryAdd : World → Nat → Int → ItemT → Nat → Nat → ReturnValue
  queryMaxCount : World → Nat → Int → ItemT → Nat → Nat → ReturnValue × Nat
  queryRemove : World → Nat → ItemT → Nat → Nat → ReturnValue
  queryDestination : World → Nat → Int → ItemT → Nat → Nat × Option ItemT × Int
  hookOnMoveItem : ReturnValue
  hookOnMoveItemExchange : ReturnValue

/-- Result of the bounded destination-resolution loop. -/
structure DestRes where
  cyl : Nat
  toItem : Option ItemT
  index : Int
  flags : Nat
  calls : Nat
deriving DecidableEq, Repr

/-- Descent loop of `Game::internalMoveItem` (game.cpp:1070-1078):
repeatedly apply `queryDestination` until it returns its own argument,
resetting `flags` to 0 after each descent, and breaking once the
descent counter reaches `MAP_MAX_LAYERS`. `fuel` is the number of
descents still allowed; `calls` counts `queryDestination` calls. -/
def resolveDestAux (P : Policy) (w : World) (item : ItemT) :
    Nat → Nat → Int → Nat → DestRes
  | fuel, toCyl, index, flags =>
    let q := P.queryDestination w toCyl index item flags
    if q.1 = toCyl then ⟨toCyl, q.2.1, q.2.2, flags, 1⟩
    else
      match fuel with
      | 0 => ⟨q.1, q.2.1, q.2.2, 0, 1⟩
      | f + 1 =>
        let r := resolveDestAux P w item f q.1 q.2.2 0
        { r with calls := r.calls + 1 }

def resolveDest (P : Policy) (w : World) (item : ItemT) (toCyl : Nat) (index : Int)
    (flags : Nat) : DestRes :=
  resolveDestAux P w item (MAP_MAX_LAYERS - 1) toCyl index flags

/-- Trade-escrow collision check of game.cpp:1160-1173: the resolved
destination cylinder's own item, or an item on its parent chain, is
the escrowed trade item. -/
def tradeBlocked (w : World) (toCyl : Nat) : Option Nat → Bool
  | none => false
  | some t => cylOwnItem w toCyl == some t || (ancestorItems w toCyl).contains t

/-- Result of a transfer-engine operation: the outcome code, the world
after the call, the notifications fired (in order), and the id written
through the `_moveItem` out-parameter. -/
structure MoveRes where
  ret : ReturnValue
  world : World
  events : List Event
  moved : Option Nat
deriving DecidableEq, Repr

/-- Shallow embedding of `Game::internalMoveItem` (game.cpp:1051-1263).
`actorPlayer` stands for "the actor is a player and both positions were
supplied", the guard of every `g_events` callback in the source. The
colliding item reported by `queryAdd` as `RETURNVALUE_NEEDEXCHANGE` is
the resolved `toItem`; a policy answering `needExchange` with no
colliding item would dereference null in the source, and is modelled as
aborting with that outcome. -/
def internalMoveItem (P : Policy) (w : World) (fromCyl toCyl₀ : Nat) (index₀ : Int)
    (item : ItemT) (count : Nat) (flags₀ : Nat) (actorPlayer : Bool)
    (tradeItem : Option Nat) : MoveRes :=
  -- game.cpp:1057-1063, eventPlayerOnMoveItem may veto
  if actorPlayer = true ∧ P.hookOnMoveItem ≠ ReturnValue.noError then
    ⟨P.hookOnMoveItem, w, [], none⟩
  else
    -- game.cpp:1070-1078, destination resolution
    let rd := resolveDest P w item toCyl₀ index₀ flags₀
    let toCyl := rd.cyl
    let index := rd.index
    let flags := rd.flags
    -- game.cpp:1081-1083, destination already holds the same item instance
    if rd.toItem.map (fun it => it.id) = some item.id then ⟨ReturnValue.noError, w, [], none⟩
    else
      -- game.cpp:1086-1132, queryAdd and the needs-exchange reciprocal move
      let retQA := P.queryAdd w toCyl index item count flags
      let step1 : ReturnValue × World × List Event × Option ItemT :=
        if retQA = ReturnValue.needExchange then
          match rd.toItem with
          | none => (ReturnValue.needExchange, w, [], none)
          | some toItemV =>
            let retA := P.queryAdd w fromCyl (getThingIndex w fromCyl item.id) toItemV
              toItemV.count 0
            if retA = ReturnValue.noError then
              if actorPlayer = true ∧ P.hookOnMoveItemExchange ≠ ReturnValue.noError then
                (P.hookOnMoveItemExchange, w, [], some toItemV)
              else
                let qmc := P.queryMaxCount w fromCyl INDEX_WHEREEVER toItemV toItemV.count 0
                if qmc.1 ≠ ReturnValue.noError ∧ qmc.2 = 0 then (qmc.1, w, [], some toItemV)
                else if P.queryRemove w toCyl toItemV toItemV.count flags
                    = ReturnValue.noError then
                  -- game.cpp:1109-1129, commit the reciprocal move
                  let oldIdx := getThingIndex w toCyl toItemV.id
                  let w1 := removeThing w toCyl toItemV.id toItemV.count
                  let w2 := addThing w1 fromCyl toItemV
                  let ev := (if oldIdx ≠ -1 then [Event.postRemove toCyl toItemV.id] else [])
                    ++ (if getThingIndex w2 fromCyl toItemV.id ≠ -1 then
                          [Event.postAdd fromCyl toItemV.id] else [])
                  let ret2 := P.queryAdd w2 toCyl index item count flags
                  let ev2 := if actorPlayer = true ∧ w2.isRemoved toItemV.id = false then
                      [Event.itemMoved toItemV.id] else []
                  (ret2, w2, ev ++ ev2, none)
                else (retA, w, [], some toItemV)
            else (retA, w, [], some toItemV)
        else (retQA, w, [], rd.toItem)
      let ret1 := step1.1
      let w1 := step1.2.1
      let ev1 := step1.2.2.1
      let toItem1 := step1.2.2.2
      -- game.cpp:1134-1136
      if ret1 ≠ ReturnValue.noError then ⟨ret1, w1, ev1, none⟩
      else
        -- game.cpp:1138-1150, how much can be moved
        let qmc := P.queryMaxCount w1 toCyl index item count flags
        let retMax := qmc.1
        let maxQ := qmc.2
        if retMax ≠ ReturnValue.noError ∧ maxQ = 0 then ⟨retMax, w1, ev1, none⟩
        else
          let m := if item.stackable then min count maxQ else maxQ
          -- game.cpp:1154-1158, queryRemove on the source
          let retQR := P.queryRemove w1 fromCyl item m flags
          if retQR ≠ ReturnValue.noError then ⟨retQR, w1, ev1, none⟩
          else
            -- game.cpp:1160-1173, trade-escrow check on the destination chain
            if tradeBlocked w1 toCyl tradeItem = true then
              ⟨ReturnValue.notEnoughRoom, w1, ev1, none⟩
            else
              -- game.cpp:1175-1203, remove from the source and merge/split
              let itemIndex := getThingIndex w1 fromCyl item.id
              let w2 := removeThing w1 fromCyl item.id m
              let upd : Nat × World × Option ItemT :=
                if item.stackable then
                  match toItem1 with
                  | some ti =>
                    if itemEquals item ti then
                      (min (ti.stackSize - ti.count) m,
                        updateThing w2 toCyl ti.id ti.itemType
                          (ti.count + min (ti.stackSize - ti.count) m), some ti)
                    else (0, w2, none)
                  | none => (0, w2, none)
                else (0, w2, none)
              let n := upd.1
              let w3 := upd.2.1
              let updateItem := upd.2.2
              let newCount := m - n
              let moveClone : Option ItemT × World :=
                if item.stackable then
                  if 0 < newCount then
                    (some { item with id := w3.nextId, count := newCount },
                      { w3 with nextId := w3.nextId + 1 })
                  else (none, w3)
                else (some item, w3)
              let moveItem := moveClone.1
              let w4 := moveClone.2
              let evRelease := if item.stackable ∧ w3.isRemoved item.id = true then
                  [Event.release item.id] else []
              -- game.cpp:1205-1208, add at the destination
              let w5 := match moveItem with
                | some mi => addThing w4 toCyl mi
                | none => w4
              -- game.cpp:1210-1226, notifications
              let evRemove := if itemIndex ≠ -1 then [Event.postRemove fromCyl item.id] else []
              let evAddMove := match moveItem with
                | some mi => if getThingIndex w5 toCyl mi.id ≠ -1 then
                    [Event.postAdd toCyl mi.id] else []
                | none => []
              let evAddUpd := match updateItem with
                | some ti => if getThingIndex w5 toCyl ti.id ≠ -1 then
                    [Event.postAdd toCyl ti.id] else []
                | none => []
              let evCommit := ev1 ++ evRelease ++ evRemove ++ evAddMove ++ evAddUpd
              -- game.cpp:1228-1234, the _moveItem out-parameter
              let moved := some ((moveItem.map (fun mi => mi.id)).getD item.id)
              -- game.cpp:1236-1239, report a partial move
              if item.stackable = true ∧ maxQ < count then ⟨retMax, w5, evCommit, moved⟩
              else
                -- game.cpp:1241-1247, enroll the moved item for decay
                let enroll : World × List Event :=
                  match moveItem with
                  | some mi =>
                    if 0 < mi.duration ∧ mi.decaying ≠ true then
                      ({ (setDecayingIn w5 toCyl mi.id) with
                          toDecayItems := mi.id :: w5.toDecayItems },
                        [Event.decayEnroll mi.id])
                    else (w5, [])
                  | none => (w5, [])
                let w6 := enroll.1
                let evFinal :=
                  if actorPlayer = true then
                    match updateItem, moveItem with
                    | some ti, _ =>
                      if w6.isRemoved ti.id = false then [Event.itemMoved ti.id] else []
                    | none, some mi =>
                      if w6.isRemoved mi.id = false then [Event.itemMoved mi.id] else []
                    | none, none =>
                      if w6.isRemoved item.id = false then [Event.itemMoved item.id] else []
                  else []
                ⟨retQR, w6, evCommit ++ enroll.2 ++ evFinal, moved⟩

/-! ## internalAddItem and internalRemoveItem -/

/-- Modelled from the spec: movement-check override flag
`FLAG_IGNORENOTMOVEABLE` (declared in `cylinder.h`, absent from the
excerpt; upstream bit value 1024). -/
def FLAG_IGNORENOTMOVEABLE : Nat := 1024

/-- De-enrollment performed by `Game::internalRemoveItem`
(game.cpp:1386): `decayItems` is the array of `EVENT_DECAY_BUCKETS`
bucket lists declared in `game.h`, so `decayItems->remove(item)` is
`std::list::remove` on the array's first element — the item is removed
from bucket 0 only. -/
def removeFromFirstBucket (bs : List (List Nat)) (iid : Nat) : List (List Nat) :=
  match bs with
  | [] => []
  | b0 :: rest => (b0.filter (fun x => x != iid)) :: rest

/-- Cylinder currently holding the item (`Thing::getParent`). -/
def findParent (w : World) (iid : Nat) : Option Nat :=
  (w.cyls.find? (fun p => p.2.any (fun it => it.id == iid))).map (fun p => p.1)

/-- Shallow embedding of the main body of `Game::internalAddItem`
(game.cpp:1272-1354) for non-null arguments. Returns the outcome, the
world, the events and the `remainderCount` out-parameter. -/
def internalAddItemGo (P : Policy) (w : World) (toCyl : Nat) (item : ItemT)
    (index : Int) (flags : Nat) (test : Bool) : ReturnValue × World × List Event × Nat :=
  let destCyl := toCyl
  -- game.cpp:1281, a single queryDestination call
  let q := P.queryDestination w toCyl index item flags
  let toCyl1 := q.1
  let toItem := q.2.1
  let index1 := q.2.2
  -- game.cpp:1284-1287
  let retQA := P.queryAdd w toCyl1 index1 item item.count flags
  if retQA ≠ ReturnValue.noError then (retQA, w, [], 0)
  else
    -- game.cpp:1293-1298, availability against the original cylinder
    let qmc := P.queryMaxCount w destCyl INDEX_WHEREEVER item item.count flags
    if qmc.1 ≠ ReturnValue.noError then (qmc.1, w, [], 0)
    else if test = true then (ReturnValue.noError, w, [], 0)
    else
      let base : World × List Event × Nat :=
        match toItem with
        | some ti =>
          if item.stackable = true ∧ itemEquals item ti = true then
            let m := min item.count qmc.2
            let n := min (ti.stackSize - ti.count) m
            let w1 := updateThing w toCyl1 ti.id ti.itemType (ti.count + n)
            let cnt := m - n
            if hcnt : 0 < cnt then
              if hne : item.count = cnt then
                -- game.cpp:1320-1327
                let w2 := addThing w1 toCyl1 item
                (w2,
                  (if getThingIndex w2 toCyl1 item.id ≠ -1 then
                    [Event.postAdd toCyl1 item.id] else []), 0)
              else
                -- game.cpp:1312-1319, recurse on the cloned remainder
                have hm : m ≤ item.count := min_le_left _ _
                have hlt : cnt < item.count :=
                  lt_of_le_of_ne (le_trans (Nat.sub_le m n) hm) (fun hh => hne hh.symm)
                let remainder := { item with id := w1.nextId, count := cnt }
                let w2 := { w1 with nextId := w1.nextId + 1 }
                let r := internalAddItemGo P w2 destCyl remainder INDEX_WHEREEVER flags false
                if r.1 ≠ ReturnValue.noError then
                  (r.2.1, r.2.2.1 ++ [Event.release remainder.id], cnt)
                else (r.2.1, r.2.2.1, 0)
            else
              -- game.cpp:1329-1336, fully merged, item destroyed
              (w1, [Event.onRemovedEv item.id, Event.release item.id] ++
                (if getThingIndex w1 toCyl1 ti.id ≠ -1 then
                  [Event.postAdd toCyl1 ti.id] else []), 0)
          else
            let w1 := addThing w toCyl1 item
            (w1,
              (if getThingIndex w1 toCyl1 item.id ≠ -1 then
                [Event.postAdd toCyl1 item.id] else []), 0)
        | none =>
          let w1 := addThing w toCyl1 item
          (w1,
            (if getThingIndex w1 toCyl1 item.id ≠ -1 then
              [Event.postAdd toCyl1 item.id] else []), 0)
      -- game.cpp:1347-1351, unconditional decay enrollment on success
      let w2 := base.1
      let enroll : World × List Event :=
        if 0 < item.duration then
          ({ (setDecayingIn w2 toCyl1 item.id) with
              toDecayItems := item.id :: w2.toDecayItems },
            [Event.decayEnroll item.id])
        else (w2, [])
      (ReturnValue.noError, enroll.1, base.2.1 ++ enroll.2, base.2.2)
termination_by item.count
decreasing_by
  simp_wf
  exact hlt

/-- Shallow embedding of `Game::internalAddItem` with the null guard of
game.cpp:1275-1277. -/
def internalAddItem (P : Policy) (w : World) (toCyl : Option Nat) (item : Option ItemT)
    (index : Int) (flags : Nat) (test : Bool) : ReturnValue × World × List Event × Nat :=
  match toCyl, item with
  | some c, some it => internalAddItemGo P w c it index flags test
  | _, _ => (ReturnValue.notPossible, w, [], 0)

/-- Shallow embedding of `Game::internalRemoveItem` (game.cpp:1356-1395).
`count` keeps the C++ convention that -1 means the item's whole count. -/
def internalRemoveItem (P : Policy) (w : World) (item : ItemT) (count : Int)
    (test : Bool) (flags : Nat) : ReturnValue × World × List Event :=
  match findParent w item.id with
  | none => (ReturnValue.notPossible, w, [])
  | some cyl =>
    let cnt : Nat := if count = -1 then item.count else count.toNat
    let retQR := P.queryRemove w cyl item cnt (flags ||| FLAG_IGNORENOTMOVEABLE)
    if retQR ≠ ReturnValue.noError then (retQR, w, [])
    else if item.canRemove = false then (ReturnValue.notPossible, w, [])
    else if test = true then (ReturnValue.noError, w, [])
    else
      let w1 := removeThing w cyl item.id cnt
      let rem : World × List Event :=
        if w1.isRemoved item.id = true then
          let w2 := if item.canDecay = true then
              { w1 with decayBuckets := removeFromFirstBucket w1.decayBuckets item.id }
            else w1
          (w2, [Event.onRemovedEv item.id, Event.release item.id])
        else (w1, [])
      (ReturnValue.noError, rem.1, rem.2 ++ [Event.postRemove cyl item.id])

/-! ## Creature single-step elevation logic -/

structure Position where
  x : Nat
  y : Nat
  z : Nat
deriving DecidableEq, Repr

inductive Direction where
  | north | east | south | west
  | southwest | southeast | northwest | northeast
deriving DecidableEq, Repr

/-- Modelled from the spec: the diagonal directions are the ones
carrying `DIRECTION_DIAGONAL_MASK` (declaration absent from the
excerpt). -/
def Direction.isDiagonal : Direction → Bool
  | .southwest | .southeast | .northwest | .northeast => true
  | _ => false

/-- Modelled from the spec: `getNextPosition` (absent from the excerpt)
advances a position one tile in the given direction, leaving `z`
unchanged. -/
def getNextPosition (d : Direction) (p : Position) : Position :=
  match d with
  | .north => { p with y := p.y - 1 }
  | .south => { p with y := p.y + 1 }
  | .west => { p with x := p.x - 1 }
  | .east => { p with x := p.x + 1 }
  | .southwest => { p with x := p.x - 1, y := p.y + 1 }
  | .southeast => { p with x := p.x + 1, y := p.y + 1 }
  | .northwest => { p with x := p.x - 1, y := p.y - 1 }
  | .northeast => { p with x := p.x + 1, y := p.y - 1 }

/-- Tile attributes read by the elevation logic: presence of ground
(`Tile::getGround`), the blocking flags, floor-change state, and
whether the tile has elevation height 3 (`Tile::hasHeight(3)`). -/
structure TileT where
  hasGround : Bool
  blockSolid : Bool
  immovableBlockSolid : Bool
  floorChange : Bool
  height3 : Bool
deriving DecidableEq, Repr

/-- Modelled from the spec: blocking-override flags
(`FLAG_IGNOREBLOCKITEM`, `FLAG_IGNOREBLOCKCREATURE`, declared in
`cylinder.h`, absent from the excerpt; upstream bit values 1 and 2). -/
def FLAG_IGNOREBLOCKITEM : Nat := 1

def FLAG_IGNOREBLOCKCREATURE : Nat := 2

/-- Reading of `Tile::hasHeight(3)` through a possibly missing tile. -/
def tileHeight3 (o : Option TileT) : Bool :=
  o.elim false (fun t => t.height3)

/-- Guard of game.cpp:766 and game.cpp:782: the tile is missing, or has
no ground and is not block-solid. -/
def tileOpenAbove : Option TileT → Bool
  | none => true
  | some t => !t.hasGround && !t.blockSolid

/-- Elevation adjustment of `Game::internalMoveCreature(Creature*,
Direction, flags)` (game.cpp:754-791): from the creature's position and
requested direction, compute the adjusted destination position, the
adjusted flags, and the facing the player is explicitly turned to
(`player->setDirection`), before the destination tile is resolved. -/
def moveCreatureStep (gmap : Position → Option TileT) (isPlayer : Bool) (pos : Position)
    (dir : Direction) (flags₀ : Nat) : Position × Nat × Option Direction :=
  let destPos := getNextPosition dir pos
  if isPlayer = true ∧ dir.isDiagonal = false then
    -- try to go up (game.cpp:764-777)
    let step1 : Position × Nat × Option Direction :=
      if pos.z ≠ 8 ∧ tileHeight3 (gmap pos) = true
          ∧ tileOpenAbove (gmap ⟨pos.x, pos.y, pos.z - 1⟩) = true then
        match gmap ⟨destPos.x, destPos.y, destPos.z - 1⟩ with
        | some t =>
          if t.hasGround = true ∧ t.immovableBlockSolid = false then
            let fl := flags₀ ||| (FLAG_IGNOREBLOCKITEM ||| FLAG_IGNOREBLOCKCREATURE)
            if t.floorChange = false then
              ({ destPos with z := destPos.z - 1 }, fl, some dir)
            else (destPos, fl, none)
          else (destPos, flags₀, none)
        | none => (destPos, flags₀, none)
      else (destPos, flags₀, none)
    -- try to go down (game.cpp:780-790)
    let p1 := step1.1
    let fl1 := step1.2.1
    let face1 := step1.2.2
    if pos.z ≠ 7 ∧ pos.z = p1.z then
      if tileOpenAbove (gmap ⟨p1.x, p1.y, p1.z⟩) = true then
        match gmap ⟨p1.x, p1.y, p1.z + 1⟩ with
        | some t =>
          if t.height3 = true ∧ t.immovableBlockSolid = false then
            ({ p1 with z := p1.z + 1 },
              fl1 ||| (FLAG_IGNOREBLOCKITEM ||| FLAG_IGNOREBLOCKCREATURE), some dir)
          else (p1, fl1, face1)
        | none => (p1, fl1, face1)
      else (p1, fl1, face1)
    else (p1, fl1, face1)
  else (destPos, flags₀, none)

/-! ## List-level lemmas about the holder mutations -/

theorem itemEquals_congr (p x y : ItemT) (ht : x.itemType = y.itemType)
    (ha : x.attrs = y.attrs) : itemEquals p x = itemEquals p y := by
  simp [itemEquals, ht, ha]

theorem countOf_cons (x : ItemT) (its : List ItemT) (p : ItemT) :
    countOf (x :: its) p =
      if itemEquals p x = true then x.count + countOf its p else countOf its p := rfl

theorem removeFromList_cons (iid m : Nat) (x : ItemT) (its : List ItemT) :
    removeFromList iid m (x :: its) =
      if x.id = iid then
        if x.stackable && decide (m < x.count) then
          { x with count := x.count - m } :: removeFromList iid m its
        else removeFromList iid m its
      else x :: removeFromList iid m its := rfl

theorem removeFromList_not_mem (iid m : Nat) (its : List ItemT)
    (h : ∀ x ∈ its, x.id ≠ iid) : removeFromList iid m its = its := by
  induction its with
  | nil => rfl
  | cons a rest ih =>
    rw [removeFromList_cons, if_neg (h a (by simp)), ih (fun x hx => h x (by simp [hx]))]

theorem ItemT_count_set_count (a : ItemT) (c : Nat) :
    ({ a with count := c } : ItemT).count = c := rfl

theorem ItemT_count_set_typecount (a : ItemT) (t c : Nat) :
    ({ a with itemType := t, count := c } : ItemT).count = c := rfl

theorem ItemT_count_set_decaying (a : ItemT) :
    ({ a with decaying := true } : ItemT).count = a.count := rfl

theorem itemEquals_self (it : ItemT) : itemEquals it it = true := by
  simp [itemEquals]

theorem le_countOf_of_mem (its : List ItemT) (it : ItemT) (hmem : it ∈ its) :
    it.count ≤ countOf its it := by
  induction its with
  | nil => cases hmem
  | cons b rest ih =>
    rw [countOf_cons]
    rcases List.mem_cons.mp hmem with hb | hb
    · subst hb
      rw [if_pos (itemEquals_self it)]
      omega
    · have := ih hb
      split_ifs <;> omega

theorem countOf_removeFromList_stack (its : List ItemT) (it : ItemT) (m : Nat)
    (hnd : (its.map ItemT.id).Nodup) (hmem : it ∈ its) (hst : it.stackable = true)
    (hm : m ≤ it.count) :
    countOf (removeFromList it.id m its) it = countOf its it - m := by
  induction its with
  | nil => cases hmem
  | cons a rest ih =>
    simp only [List.map_cons, List.nodup_cons] at hnd
    rcases List.mem_cons.mp hmem with heq | hmem2
    · subst heq
      have hrest : ∀ x ∈ rest, x.id ≠ it.id := by
        intro x hx hxe
        exact hnd.1 (by rw [← hxe]; exact List.mem_map_of_mem ItemT.id hx)
      rw [removeFromList_cons, if_pos rfl, removeFromList_not_mem _ _ _ hrest]
      by_cases hlt : m < it.count
      · rw [if_pos (by simp [hst, hlt])]
        rw [countOf_cons, countOf_cons,
          itemEquals_congr it { it with count := it.count - m } it rfl rfl,
          if_pos (itemEquals_self it), if_pos (itemEquals_self it),
          ItemT_count_set_count]
        omega
      · rw [if_neg (by simp [hst]; omega), countOf_cons, if_pos (itemEquals_self it)]
        omega
    · have hane : a.id ≠ it.id := by
        intro hae
        exact hnd.1 (by rw [hae]; exact List.mem_map_of_mem ItemT.id hmem2)
      rw [removeFromList_cons, if_neg hane, countOf_cons, countOf_cons,
        ih hnd.2 hmem2]
      have hmc : m ≤ countOf rest it := le_trans hm (le_countOf_of_mem rest it hmem2)
      split_ifs <;> omega

theorem countOf_removeFromList_nonstack (its : List ItemT) (it : ItemT) (m : Nat)
    (hnd : (its.map ItemT.id).Nodup) (hmem : it ∈ its) (hst : it.stackable = false) :
    countOf (removeFromList it.id m its) it = countOf its it - it.count := by
  induction its with
  | nil => cases hmem
  | cons a rest ih =>
    simp only [List.map_cons, List.nodup_cons] at hnd
    rcases List.mem_cons.mp hmem with heq | hmem2
    · subst heq
      have hrest : ∀ x ∈ rest, x.id ≠ it.id := by
        intro x hx hxe
        exact hnd.1 (by rw [← hxe]; exact List.mem_map_of_mem ItemT.id hx)
      rw [removeFromList_cons, if_pos rfl, removeFromList_not_mem _ _ _ hrest,
        if_neg (by simp [hst]), countOf_cons, if_pos (itemEquals_self it)]
      omega
    · have hane : a.id ≠ it.id := by
        intro hae
        exact hnd.1 (by rw [hae]; exact List.mem_map_of_mem ItemT.id hmem2)
      rw [removeFromList_cons, if_neg hane, countOf_cons, countOf_cons,
        ih hnd.2 hmem2]
      have hmc := le_countOf_of_mem rest it hmem2
      split_ifs <;> omega

theorem updateList_cons (iid t c : Nat) (x : ItemT) (its : List ItemT) :
    updateList iid t c (x :: its) =
      (if x.id = iid then { x with itemType := t, count := c } else x) ::
        updateList iid t c its := rfl

theorem updateList_not_mem (iid t c : Nat) (its : List ItemT)
    (h : ∀ x ∈ its, x.id ≠ iid) : updateList iid t c its = its := by
  induction its with
  | nil => rfl
  | cons a rest ih =>
    rw [updateList_cons, if_neg (h a (by simp)), ih (fun x hx => h x (by simp [hx]))]

theorem countOf_updateList (its : List ItemT) (ti : ItemT) (n : Nat) (proto : ItemT)
    (hnd : (its.map ItemT.id).Nodup) (hmem : ti ∈ its)
    (heq : itemEquals proto ti = true) :
    countOf (updateList ti.id ti.itemType (ti.count + n) its) proto =
      countOf its proto + n := by
  induction its with
  | nil => cases hmem
  | cons a rest ih =>
    simp only [List.map_cons, List.nodup_cons] at hnd
    rcases List.mem_cons.mp hmem with hae | hmem2
    · subst hae
      have hrest : ∀ x ∈ rest, x.id ≠ ti.id := by
        intro x hx hxe
        exact hnd.1 (by rw [← hxe]; exact List.mem_map_of_mem ItemT.id hx)
      have hu := updateList_not_mem ti.id ti.itemType (ti.count + n) rest hrest
      rw [updateList_cons, if_pos rfl, hu, countOf_cons, countOf_cons,
        itemEquals_congr proto { ti with itemType := ti.itemType, count := ti.count + n } ti
          rfl rfl, if_pos heq, if_pos heq, ItemT_count_set_typecount]
      omega
    · have hane : a.id ≠ ti.id := by
        intro hae
        exact hnd.1 (by rw [hae]; exact List.mem_map_of_mem ItemT.id hmem2)
      rw [updateList_cons, if_neg hane, countOf_cons, countOf_cons, ih hnd.2 hmem2]
      split_ifs <;> omega

theorem countOf_append_one (its : List ItemT) (x : ItemT) (proto : ItemT) :
    countOf (its ++ [x]) proto =
      countOf its proto + (if itemEquals proto x = true then x.count else 0) := by
  induction its with
  | nil => simp [countOf_cons, countOf]
  | cons a rest ih =>
    rw [List.cons_append, countOf_cons, countOf_cons, ih]
    split_ifs <;> omega

theorem setDecayingList_cons (iid : Nat) (x : ItemT) (its : List ItemT) :
    setDecayingList iid (x :: its) =
      (if x.id = iid then { x with decaying := true } else x) ::
        setDecayingList iid its := rfl

theorem countOf_setDecayingList (iid : Nat) (its : List ItemT) (proto : ItemT) :
    countOf (setDecayingList iid its) proto = countOf its proto := by
  induction its with
  | nil => rfl
  | cons a rest ih =>
    rw [setDecayingList_cons, countOf_cons, countOf_cons, ih]
    by_cases ha : a.id = iid
    · rw [if_pos ha, itemEquals_congr proto { a with decaying := true } a rfl rfl,
        ItemT_count_set_decaying]
    · rw [if_neg ha]

/-- Lookup of an item by id inside a holder's contents. -/
def listFind (iid : Nat) (its : List ItemT) : Option ItemT :=
  its.find? (fun it => it.id == iid)

theorem listFind_nil (iid : Nat) : listFind iid [] = none := rfl

theorem listFind_cons (iid : Nat) (x : ItemT) (its : List ItemT) :
    listFind iid (x :: its) = if x.id = iid then some x else listFind iid its := by
  by_cases h : x.id = iid
  · simp [listFind, List.find?, h]
  · have hb : (x.id == iid) = false := by simp [h]
    simp [listFind, List.find?, hb, h]

theorem listFind_not_mem (iid : Nat) (its : List ItemT)
    (h : ∀ x ∈ its, x.id ≠ iid) : listFind iid its = none := by
  induction its with
  | nil => rfl
  | cons a rest ih =>
    rw [listFind_cons, if_neg (h a (by simp)), ih (fun x hx => h x (by simp [hx]))]

theorem listFind_append_left (iid : Nat) (its more : List ItemT) (y : ItemT)
    (h : listFind iid its = some y) : listFind iid (its ++ more) = some y := by
  induction its with
  | nil => simp [listFind_nil] at h
  | cons a rest ih =>
    rw [listFind_cons] at h
    rw [List.cons_append, listFind_cons]
    by_cases ha : a.id = iid
    · rw [if_pos ha] at h ⊢; exact h
    · rw [if_neg ha] at h ⊢; exact ih h

theorem listFind_append_right (iid : Nat) (its : List ItemT) (x : ItemT)
    (h : ∀ y ∈ its, y.id ≠ iid) :
    listFind iid (its ++ [x]) = if x.id = iid then some x else none := by
  induction its with
  | nil => simp [listFind_cons, listFind_nil]
  | cons a rest ih =>
    rw [List.cons_append, listFind_cons, if_neg (h a (by simp))]
    exact ih (fun y hy => h y (by simp [hy]))

theorem listFind_updateList_self (its : List ItemT) (ti : ItemT) (t c : Nat)
    (hnd : (its.map ItemT.id).Nodup) (hmem : ti ∈ its) :
    listFind ti.id (updateList ti.id t c its) =
      some { ti with itemType := t, count := c } := by
  induction its with
  | nil => cases hmem
  | cons a rest ih =>
    simp only [List.map_cons, List.nodup_cons] at hnd
    rcases List.mem_cons.mp hmem with heq | hmem2
    · subst heq
      rw [updateList_cons, if_pos rfl, listFind_cons, if_pos rfl]
    · have hane : a.id ≠ ti.id := by
        intro hae
        exact hnd.1 (by rw [hae]; exact List.mem_map_of_mem ItemT.id hmem2)
      rw [updateList_cons, if_neg hane, listFind_cons, if_neg hane]
      exact ih hnd.2 hmem2

theorem updateList_id_mem (iid t c : Nat) (its : List ItemT) (x : ItemT)
    (hx : x ∈ updateList iid t c its) : ∃ y ∈ its, x.id = y.id := by
  induction its with
  | nil => cases hx
  | cons a rest ih =>
    rw [updateList_cons] at hx
    rcases List.mem_cons.mp hx with h1 | h1
    · by_cases ha : a.id = iid
      · rw [if_pos ha] at h1
        exact ⟨a, by simp, by subst h1; rfl⟩
      · rw [if_neg ha] at h1
        exact ⟨a, by simp, by subst h1; rfl⟩
    · obtain ⟨y, hy, hxy⟩ := ih h1
      exact ⟨y, by simp [hy], hxy⟩

theorem listFind_updateList_ne (its : List ItemT) (iid jid t c : Nat)
    (hne : jid ≠ iid) :
    listFind iid (updateList jid t c its) = listFind iid its := by
  induction its with
  | nil => rfl
  | cons a rest ih =>
    rw [updateList_cons, listFind_cons, listFind_cons]
    by_cases ha : a.id = jid
    · rw [if_pos ha]
      have : ({ a with itemType := t, count := c } : ItemT).id = a.id := rfl
      rw [this]
      rw [ha, if_neg hne, if_neg (ha ▸ hne)]
      exact ih
    · rw [if_neg ha]
      by_cases hai : a.id = iid
      · rw [if_pos hai, if_pos hai]
      · rw [if_neg hai, if_neg hai]
        exact ih

theorem listFind_setDecayingList_count (its : List ItemT) (iid jid : Nat) :
    (listFind iid (setDecayingList jid its)).map (fun it => it.count) =
      (listFind iid its).map (fun it => it.count) := by
  induction its with
  | nil => rfl
  | cons a rest ih =>
    rw [setDecayingList_cons, listFind_cons, listFind_cons]
    by_cases ha : a.id = jid
    · rw [if_pos ha]
      have hid : ({ a with decaying := true } : ItemT).id = a.id := rfl
      rw [hid]
      by_cases hai : a.id = iid
      · rw [if_pos hai, if_pos hai]
        simp [ItemT_count_set_decaying]
      · rw [if_neg hai, if_neg hai]
        exact ih
    · rw [if_neg ha]
      by_cases hai : a.id = iid
      · rw [if_pos hai, if_pos hai]
      · rw [if_neg hai, if_neg hai]
        exact ih

/-- All stack counts of a contents list are within [1, stack limit]. -/
def wfList (its : List ItemT) : Prop :=
  ∀ x ∈ its, 1 ≤ x.count ∧ x.count ≤ x.stackSize

theorem wfList_removeFromList (iid m : Nat) (its : List ItemT) (h : wfList its) :
    wfList (removeFromList iid m its) := by
  induction its with
  | nil => intro x hx; cases hx
  | cons a rest ih =>
    have hha := h a (by simp)
    have hhr : wfList rest := fun x hx => h x (by simp [hx])
    rw [removeFromList_cons]
    by_cases ha : a.id = iid
    · rw [if_pos ha]
      by_cases hg : a.stackable && decide (m < a.count)
      · rw [if_pos hg]
        intro x hx
        rcases List.mem_cons.mp hx with h1 | h1
        · subst h1
          simp only [Bool.and_eq_true, decide_eq_true_eq] at hg
          constructor
          · rw [ItemT_count_set_count]; omega
          · rw [ItemT_count_set_count]
            have : ({ a with count := a.count - m } : ItemT).stackSize = a.stackSize := rfl
            rw [this]
            omega
        · exact ih hhr x h1
      · rw [if_neg hg]
        exact ih hhr
    · rw [if_neg ha]
      intro x hx
      rcases List.mem_cons.mp hx with h1 | h1
      · subst h1; exact hha
      · exact ih hhr x h1

theorem wfList_updateList (iid t c : Nat) (its : List ItemT) (h : wfList its)
    (hc1 : 1 ≤ c) (hc2 : ∀ x ∈ its, x.id = iid → c ≤ x.stackSize) :
    wfList (updateList iid t c its) := by
  induction its with
  | nil => intro x hx; cases hx
  | cons a rest ih =>
    have hha := h a (by simp)
    have hhr : wfList rest := fun x hx => h x (by simp [hx])
    rw [updateList_cons]
    intro x hx
    rcases List.mem_cons.mp hx with h1 | h1
    · by_cases ha : a.id = iid
      · rw [if_pos ha] at h1
        subst h1
        refine ⟨by rw [ItemT_count_set_typecount]; omega, ?_⟩
        rw [ItemT_count_set_typecount]
        have : ({ a with itemType := t, count := c } : ItemT).stackSize = a.stackSize := rfl
        rw [this]
        exact hc2 a (by simp) ha
      · rw [if_neg ha] at h1
        subst h1
        exact hha
    · exact ih hhr (fun x hx hxi => hc2 x (by simp [hx]) hxi) x h1

theorem wfList_append_one (its : List ItemT) (x : ItemT) (h : wfList its)
    (hx1 : 1 ≤ x.count) (hx2 : x.count ≤ x.stackSize) : wfList (its ++ [x]) := by
  intro y hy
  rcases List.mem_append.mp hy with h1 | h1
  · exact h y h1
  · rcases List.mem_singleton.mp h1 with rfl
    exact ⟨hx1, hx2⟩

theorem wfList_setDecayingList (iid : Nat) (its : List ItemT) (h : wfList its) :
    wfList (setDecayingList iid its) := by
  induction its with
  | nil => intro x hx; cases hx
  | cons a rest ih =>
    have hha := h a (by simp)
    have hhr : wfList rest := fun x hx => h x (by simp [hx])
    rw [setDecayingList_cons]
    intro x hx
    rcases List.mem_cons.mp hx with h1 | h1
    · by_cases ha : a.id = iid
      · rw [if_pos ha] at h1
        subst h1
        have h1' : ({ a with decaying := true } : ItemT).stackSize = a.stackSize := rfl
        exact ⟨by simpa [ItemT_count_set_decaying] using hha.1,
          by simpa [ItemT_count_set_decaying, h1'] using hha.2⟩
      · rw [if_neg ha] at h1
        subst h1
        exact hha
    · exact ih hhr x h1

/-- Key presence in the cylinder map. -/
def containsCyl (w : World) (c : Nat) : Bool :=
  w.cyls.any (fun p => p.1 == c)

theorem getC_setC_self (l : List (Nat × List ItemT)) (c : Nat) (x : List ItemT)
    (h : l.any (fun p => p.1 == c) = true) : getC (setC l c x) c = x := by
  induction l with
  | nil => simp at h
  | cons a rest ih =>
    by_cases ha : a.1 = c
    · obtain ⟨a1, a2⟩ := a
      simp only at ha
      subst ha
      simp [setC, getC]
    · obtain ⟨a1, a2⟩ := a
      simp only at ha
      simp only [List.any_cons, Bool.or_eq_true, beq_iff_eq] at h
      rcases h with h | h
      · exact absurd h ha
      · simp only [setC, getC, if_neg ha]
        exact ih h

theorem getC_setC_ne (l : List (Nat × List ItemT)) (c c' : Nat) (x : List ItemT)
    (h : c ≠ c') : getC (setC l c x) c' = getC l c' := by
  induction l with
  | nil => rfl
  | cons a rest ih =>
    obtain ⟨a1, a2⟩ := a
    by_cases ha : a1 = c
    · subst ha
      simp only [setC, getC, if_pos rfl, if_neg h]
    · simp only [setC, getC, if_neg ha]
      by_cases ha' : a1 = c'
      · rw [if_pos ha', if_pos ha']
      · rw [if_neg ha', if_neg ha']
        exact ih

theorem contents_setContents_self (w : World) (c : Nat) (its : List ItemT)
    (hk : containsCyl w c = true) : (w.setContents c its).contents c = its := by
  exact getC_setC_self w.cyls c its hk

theorem contents_setContents_ne (w : World) (c c' : Nat) (its : List ItemT)
    (h : c ≠ c') : (w.setContents c its).contents c' = w.contents c' :=
  getC_setC_ne w.cyls c c' its h

theorem containsCyl_setC (l : List (Nat × List ItemT)) (c c' : Nat) (x : List ItemT) :
    (setC l c x).any (fun p => p.1 == c') = l.any (fun p => p.1 == c') := by
  induction l with
  | nil => rfl
  | cons a rest ih =>
    obtain ⟨a1, a2⟩ := a
    by_cases ha : a1 = c
    · subst ha
      simp [setC]
    · simp only [setC, if_neg ha, List.any_cons]
      rw [ih]

theorem containsCyl_setContents (w : World) (c c' : Nat) (its : List ItemT) :
    containsCyl (w.setContents c its) c' = containsCyl w c' :=
  containsCyl_setC w.cyls c c' its

theorem contents_removeThing_self (w : World) (c iid m : Nat)
    (hk : containsCyl w c = true) :
    (removeThing w c iid m).contents c = removeFromList iid m (w.contents c) :=
  contents_setContents_self w c _ hk

theorem contents_removeThing_ne (w : World) (c c' iid m : Nat) (h : c ≠ c') :
    (removeThing w c iid m).contents c' = w.contents c' :=
  contents_setContents_ne w c c' _ h

theorem contents_updateThing_self (w : World) (c iid t cnt : Nat)
    (hk : containsCyl w c = true) :
    (updateThing w c iid t cnt).contents c = updateList iid t cnt (w.contents c) :=
  contents_setContents_self w c _ hk

theorem contents_updateThing_ne (w : World) (c c' iid t cnt : Nat) (h : c ≠ c') :
    (updateThing w c iid t cnt).contents c' = w.contents c' :=
  contents_setContents_ne w c c' _ h

theorem contents_addThing_self (w : World) (c : Nat) (it : ItemT)
    (hk : containsCyl w c = true) :
    (addThing w c it).contents c = w.contents c ++ [it] :=
  contents_setContents_self w c _ hk

theorem contents_addThing_ne (w : World) (c c' : Nat) (it : ItemT) (h : c ≠ c') :
    (addThing w c it).contents c' = w.contents c' :=
  contents_setContents_ne w c c' _ h

theorem contents_setDecayingIn_self (w : World) (c iid : Nat)
    (hk : containsCyl w c = true) :
    (setDecayingIn w c iid).contents c = setDecayingList iid (w.contents c) :=
  contents_setContents_self w c _ hk

theorem contents_setDecayingIn_ne (w : World) (c c' iid : Nat) (h : c ≠ c') :
    (setDecayingIn w c iid).contents c' = w.contents c' :=
  contents_setContents_ne w c c' _ h

theorem contents_nextId (w : World) (k c : Nat) :
    ({ w with nextId := k } : World).contents c = w.contents c := rfl

theorem contents_toDecay (w : World) (l : List Nat) (c : Nat) :
    ({ w with toDecayItems := l } : World).contents c = w.contents c := rfl

theorem containsCyl_removeThing (w : World) (c c' iid m : Nat) :
    containsCyl (removeThing w c iid m) c' = containsCyl w c' :=
  containsCyl_setContents w c c' _

theorem containsCyl_updateThing (w : World) (c c' iid t cnt : Nat) :
    containsCyl (updateThing w c iid t cnt) c' = containsCyl w c' :=
  containsCyl_setContents w c c' _

theorem containsCyl_nextId (w : World) (k c : Nat) :
    containsCyl ({ w with nextId := k } : World) c = containsCyl w c := rfl

theorem nextId_removeThing (w : World) (c iid m : Nat) :
    (removeThing w c iid m).nextId = w.nextId := rfl

theorem nextId_updateThing (w : World) (c iid t cnt : Nat) :
    (updateThing w c iid t cnt).nextId = w.nextId := rfl

theorem totalOf_eq_countOf (w : World) (c : Nat) (p : ItemT) :
    w.totalOf c p = countOf (w.contents c) p := rfl

theorem findIn_eq_listFind (w : World) (c iid : Nat) :
    w.findIn c iid = listFind iid (w.contents c) := rfl

theorem ItemT_count_set_idcount (a : ItemT) (i c : Nat) :
    ({ a with id := i, count := c } : ItemT).count = c := rfl

theorem ItemT_id_set_idcount (a : ItemT) (i c : Nat) :
    ({ a with id := i, count := c } : ItemT).id = i := rfl

/-- Path hypotheses putting an `internalMoveItem` call on the plain
commit path (no veto, no no-op, no needs-exchange, no availability or
removal failure, no trade-escrow collision). -/
structure MovePath (P : Policy) (w : World) (fromCyl toCyl₀ : Nat) (index₀ : Int)
    (item : ItemT) (count : Nat) (flags₀ : Nat) (tradeItem : Option Nat)
    (rd : DestRes) (rm : ReturnValue) (mq : Nat) : Prop where
  hres : resolveDest P w item toCyl₀ index₀ flags₀ = rd
  hni : rd.toItem.map (fun it => it.id) ≠ some item.id
  hQA : P.queryAdd w rd.cyl rd.index item count rd.flags = ReturnValue.noError
  hmc : P.queryMaxCount w rd.cyl rd.index item count rd.flags = (rm, mq)
  hcond : ¬(rm ≠ ReturnValue.noError ∧ mq = 0)
  hqr : P.queryRemove w fromCyl item
    (if item.stackable = true then min count mq else mq) rd.flags = ReturnValue.noError
  htr : tradeBlocked w rd.cyl tradeItem = false

set_option maxHeartbeats 2000000 in
theorem moveCommit_ret (P : Policy) (w : World) (fromCyl toCyl₀ : Nat) (index₀ : Int)
    (item : ItemT) (count : Nat) (flags₀ : Nat) (tradeItem : Option Nat)
    (rd : DestRes) (rm : ReturnValue) (mq : Nat)
    (h : MovePath P w fromCyl toCyl₀ index₀ item count flags₀ tradeItem rd rm mq) :
    (internalMoveItem P w fromCyl toCyl₀ index₀ item count flags₀ false tradeItem).ret =
      (if item.stackable = true ∧ mq < count then rm else ReturnValue.noError) := by
  obtain ⟨hres, hni, hQA, hmc, hcond, hqr, htr⟩ := h
  simp [internalMoveItem, hres, hQA, hmc, hqr, htr, hni, hcond]
  by_cases hp : item.stackable = true ∧ mq < count
  · rw [if_pos hp, if_pos hp]
  · rw [if_neg hp, if_neg hp]

set_option maxHeartbeats 4000000 in
theorem moveCommit_contents_from (P : Policy) (w : World) (fromCyl toCyl₀ : Nat)
    (index₀ : Int) (item : ItemT) (count : Nat) (flags₀ : Nat) (tradeItem : Option Nat)
    (rd : DestRes) (rm : ReturnValue) (mq : Nat)
    (h : MovePath P w fromCyl toCyl₀ index₀ item count flags₀ tradeItem rd rm mq)
    (hrne : rd.cyl ≠ fromCyl) (hkf : containsCyl w fromCyl = true) :
    (internalMoveItem P w fromCyl toCyl₀ index₀ item count flags₀ false
        tradeItem).world.contents fromCyl =
      removeFromList item.id (if item.stackable = true then min count mq else mq)
        (w.contents fromCyl) := by
  obtain ⟨hres, hni, hQA, hmc, hcond, hqr, htr⟩ := h
  simp [internalMoveItem, hres, hQA, hmc, hqr, htr, hni, hcond]
  by_cases hp : item.stackable = true ∧ mq < count
  · rw [if_pos hp]
    rcases hto : rd.toItem with _ | ti
    · simp only [hto]
      split_ifs <;>
        simp [contents_toDecay, contents_nextId, contents_setDecayingIn_ne, contents_addThing_ne,
          contents_updateThing_ne, contents_removeThing_self, hkf, hrne]
    · simp only [hto]
      by_cases heqt : itemEquals item ti = true <;>
        simp only [heqt] <;>
        split_ifs <;>
        simp [contents_toDecay, contents_nextId, contents_setDecayingIn_ne, contents_addThing_ne,
          contents_updateThing_ne, contents_removeThing_self, hkf, hrne]
  · rw [if_neg hp]
    rcases hto : rd.toItem with _ | ti
    · simp only [hto]
      split_ifs <;>
        simp [contents_toDecay, contents_nextId, contents_setDecayingIn_ne, contents_addThing_ne,
          contents_updateThing_ne, contents_removeThing_self, hkf, hrne] <;>
        (try (split_ifs <;>
          simp [contents_toDecay, contents_nextId, contents_setDecayingIn_ne,
            contents_addThing_ne, contents_updateThing_ne, contents_removeThing_self, hkf, hrne]))
    · simp only [hto]
      by_cases heqt : itemEquals item ti = true <;>
        simp only [heqt] <;>
        split_ifs <;>
        simp [contents_toDecay, contents_nextId, contents_setDecayingIn_ne, contents_addThing_ne,
          contents_updateThing_ne, contents_removeThing_self, hkf, hrne] <;>
        (try (split_ifs <;>
          simp [contents_toDecay, contents_nextId, contents_setDecayingIn_ne,
            contents_addThing_ne, contents_updateThing_ne, contents_removeThing_self, hkf, hrne]))

set_option maxHeartbeats 4000000 in
theorem moveCommit_contents_other (P : Policy) (w : World) (fromCyl toCyl₀ : Nat)
    (index₀ : Int) (item : ItemT) (count : Nat) (flags₀ : Nat) (tradeItem : Option Nat)
    (rd : DestRes) (rm : ReturnValue) (mq : Nat) (c : Nat)
    (h : MovePath P w fromCyl toCyl₀ index₀ item count flags₀ tradeItem rd rm mq)
    (hcf : c ≠ fromCyl) (hct : c ≠ rd.cyl) :
    (internalMoveItem P w fromCyl toCyl₀ index₀ item count flags₀ false
        tradeItem).world.contents c = w.contents c := by
  obtain ⟨hres, hni, hQA, hmc, hcond, hqr, htr⟩ := h
  have hcf' : fromCyl ≠ c := fun hh => hcf hh.symm
  have hct' : rd.cyl ≠ c := fun hh => hct hh.symm
  simp [internalMoveItem, hres, hQA, hmc, hqr, htr, hni, hcond]
  by_cases hp : item.stackable = true ∧ mq < count
  · rw [if_pos hp]
    rcases hto : rd.toItem with _ | ti
    · simp only [hto]
      split_ifs <;>
        simp [contents_toDecay, contents_nextId, contents_setDecayingIn_ne, contents_addThing_ne,
          contents_updateThing_ne, contents_removeThing_ne, hcf', hct']
    · simp only [hto]
      by_cases heqt : itemEquals item ti = true <;>
        simp only [heqt] <;>
        split_ifs <;>
        simp [contents_toDecay, contents_nextId, contents_setDecayingIn_ne, contents_addThing_ne,
          contents_updateThing_ne, contents_removeThing_ne, hcf', hct']
  · rw [if_neg hp]
    rcases hto : rd.toItem with _ | ti
    · simp only [hto]
      split_ifs <;>
        simp [contents_toDecay, contents_nextId, contents_setDecayingIn_ne, contents_addThing_ne,
          contents_updateThing_ne, contents_removeThing_ne, hcf', hct'] <;>
        (try (split_ifs <;>
          simp [contents_toDecay, contents_nextId, contents_setDecayingIn_ne,
            contents_addThing_ne, contents_updateThing_ne, contents_removeThing_ne, hcf', hct']))
    · simp only [hto]
      by_cases heqt : itemEquals item ti = true <;>
        simp only [heqt] <;>
        split_ifs <;>
        simp [contents_toDecay, contents_nextId, contents_setDecayingIn_ne, contents_addThing_ne,
          contents_updateThing_ne, contents_removeThing_ne, hcf', hct'] <;>
        (try (split_ifs <;>
          simp [contents_toDecay, contents_nextId, contents_setDecayingIn_ne,
            contents_addThing_ne, contents_updateThing_ne, contents_removeThing_ne, hcf', hct']))

theorem containsCyl_addThing (w : World) (c c' : Nat) (it : ItemT) :
    containsCyl (addThing w c it) c' = containsCyl w c' :=
  containsCyl_setContents w c c' _

theorem containsCyl_setDecayingIn (w : World) (c c' iid : Nat) :
    containsCyl (setDecayingIn w c iid) c' = containsCyl w c' :=
  containsCyl_setContents w c c' _

theorem itemEquals_clone (a : ItemT) (i c : Nat) :
    itemEquals a { a with id := i, count := c } = true := by
  simp [itemEquals]

set_option maxHeartbeats 4000000 in
theorem moveCommit_total_to (P : Policy) (w : World) (fromCyl toCyl₀ : Nat)
    (index₀ : Int) (item : ItemT) (count : Nat) (flags₀ : Nat) (tradeItem : Option Nat)
    (rd : DestRes) (rm : ReturnValue) (mq : Nat)
    (h : MovePath P w fromCyl toCyl₀ index₀ item count flags₀ tradeItem rd rm mq)
    (hrne : rd.cyl ≠ fromCyl) (hkf : containsCyl w fromCyl = true)
    (hkt : containsCyl w rd.cyl = true)
    (hndt : ((w.contents rd.cyl).map ItemT.id).Nodup)
    (hti0 : ∀ ti, rd.toItem = some ti → ti ∈ w.contents rd.cyl) :
    (internalMoveItem P w fromCyl toCyl₀ index₀ item count flags₀ false
        tradeItem).world.totalOf rd.cyl item =
      w.totalOf rd.cyl item + (if item.stackable = true then min count mq else item.count) := by
  obtain ⟨hres, hni, hQA, hmc, hcond, hqr, htr⟩ := h
  have hfr : fromCyl ≠ rd.cyl := fun hh => hrne hh.symm
  simp [internalMoveItem, hres, hQA, hmc, hqr, htr, hni, hcond]
  by_cases hp : item.stackable = true ∧ mq < count
  · rw [if_pos hp]
    rcases hto : rd.toItem with _ | ti
    · simp only [hto]
      split_ifs <;>
        (try contradiction) <;>
        simp [totalOf_eq_countOf, contents_toDecay, contents_nextId, contents_setDecayingIn_self,
          contents_addThing_self, contents_updateThing_self, contents_removeThing_ne,
          containsCyl_setContents, containsCyl_nextId, containsCyl_removeThing, containsCyl_updateThing, containsCyl_addThing, containsCyl_setDecayingIn, hkt, hfr, countOf_setDecayingList,
          countOf_append_one, itemEquals_clone, itemEquals_self, ItemT_count_set_idcount] <;>
        (try omega)
    · have hmemti := hti0 ti hto
      simp only [hto]
      by_cases heqt : itemEquals item ti = true <;>
        simp only [heqt] <;>
        split_ifs <;>
        (try contradiction) <;>
        simp [totalOf_eq_countOf, contents_toDecay, contents_nextId, contents_setDecayingIn_self,
          contents_addThing_self, contents_updateThing_self, contents_removeThing_ne,
          containsCyl_setContents, containsCyl_nextId, containsCyl_removeThing, containsCyl_updateThing, containsCyl_addThing, containsCyl_setDecayingIn, hkt, hfr, countOf_setDecayingList,
          countOf_append_one, countOf_updateList, hndt, hmemti, heqt, itemEquals_clone,
          itemEquals_self, ItemT_count_set_idcount] <;>
        (try omega)
  · rw [if_neg hp]
    rcases hto : rd.toItem with _ | ti
    · simp only [hto]
      split_ifs <;>
        (try contradiction) <;>
        simp [totalOf_eq_countOf, contents_toDecay, contents_nextId, contents_setDecayingIn_self,
          contents_addThing_self, contents_updateThing_self, contents_removeThing_ne,
          containsCyl_setContents, containsCyl_nextId, containsCyl_removeThing, containsCyl_updateThing, containsCyl_addThing, containsCyl_setDecayingIn, hkt, hfr, countOf_setDecayingList,
          countOf_append_one, itemEquals_clone, itemEquals_self, ItemT_count_set_idcount] <;>
        (try (split_ifs <;>
          simp [totalOf_eq_countOf, contents_toDecay, contents_nextId, contents_setDecayingIn_self,
            contents_addThing_self, contents_updateThing_self, contents_removeThing_ne,
            containsCyl_setContents, containsCyl_nextId, containsCyl_removeThing, containsCyl_updateThing, containsCyl_addThing, containsCyl_setDecayingIn, hkt, hfr, countOf_setDecayingList,
            countOf_append_one, itemEquals_clone, itemEquals_self, ItemT_count_set_idcount])) <;>
        (try omega)
    · have hmemti := hti0 ti hto
      simp only [hto]
      by_cases heqt : itemEquals item ti = true <;>
        simp only [heqt] <;>
        split_ifs <;>
        (try contradiction) <;>
        simp [totalOf_eq_countOf, contents_toDecay, contents_nextId, contents_setDecayingIn_self,
          contents_addThing_self, contents_updateThing_self, contents_removeThing_ne,
          containsCyl_setContents, containsCyl_nextId, containsCyl_removeThing, containsCyl_updateThing, containsCyl_addThing, containsCyl_setDecayingIn, hkt, hfr, countOf_setDecayingList,
          countOf_append_one, countOf_updateList, hndt, hmemti, heqt, itemEquals_clone,
          itemEquals_self, ItemT_count_set_idcount] <;>
        (try (split_ifs <;>
          simp [totalOf_eq_countOf, contents_toDecay, contents_nextId, contents_setDecayingIn_self,
            contents_addThing_self, contents_updateThing_self, contents_removeThing_ne,
            containsCyl_setContents, containsCyl_nextId, containsCyl_removeThing, containsCyl_updateThing, containsCyl_addThing, containsCyl_setDecayingIn, hkt, hfr, countOf_setDecayingList,
            countOf_append_one, countOf_updateList, hndt, hmemti, heqt, itemEquals_clone,
            itemEquals_self, ItemT_count_set_idcount])) <;>
        (try omega)

set_option maxHeartbeats 4000000 in
theorem moveCommit_find_merge (P : Policy) (w : World) (fromCyl toCyl₀ : Nat)
    (index₀ : Int) (item : ItemT) (count : Nat) (flags₀ : Nat) (tradeItem : Option Nat)
    (rd : DestRes) (rm : ReturnValue) (mq : Nat)
    (h : MovePath P w fromCyl toCyl₀ index₀ item count flags₀ tradeItem rd rm mq)
    (hrne : rd.cyl ≠ fromCyl) (hkt : containsCyl w rd.cyl = true)
    (hndt : ((w.contents rd.cyl).map ItemT.id).Nodup)
    (ti : ItemT) (hto : rd.toItem = some ti) (hmemti : ti ∈ w.contents rd.cyl)
    (heqt : itemEquals item ti = true) (hst : item.stackable = true) :
    ((internalMoveItem P w fromCyl toCyl₀ index₀ item count flags₀ false
        tradeItem).world.findIn rd.cyl ti.id).map (fun x => x.count) =
      some (ti.count + min (ti.stackSize - ti.count) (min count mq)) := by
  obtain ⟨hres, hni, hQA, hmc, hcond, hqr, htr⟩ := h
  have hfr : fromCyl ≠ rd.cyl := fun hh => hrne hh.symm
  have hfind := listFind_updateList_self (w.contents rd.cyl) ti
  have hni2 : ti.id ≠ item.id := by
    intro hh
    exact hni (by rw [hto]; simp [hh])
  have hqr2 : P.queryRemove w fromCyl item (min count mq) rd.flags = ReturnValue.noError := by
    simpa [hst] using hqr
  simp [internalMoveItem, hres, hQA, hmc, hqr, hqr2, htr, hni, hcond, hst, hto, heqt, hni2,
    -Option.map_eq_some']
  by_cases hp : mq < count
  · rw [if_pos hp]
    simp only
    split_ifs <;>
      (try contradiction) <;>
      simp [findIn_eq_listFind, -Option.map_eq_some', contents_toDecay, contents_nextId, contents_setDecayingIn_self,
        contents_addThing_self, contents_updateThing_self, contents_removeThing_ne,
        containsCyl_setContents, containsCyl_nextId, containsCyl_removeThing,
        containsCyl_updateThing, containsCyl_addThing, containsCyl_setDecayingIn, hkt, hfr,
        listFind_setDecayingList_count, listFind_append_left, hfind, hndt, hmemti,
        ItemT_count_set_typecount] <;>
      (try (split_ifs <;>
        simp [findIn_eq_listFind, -Option.map_eq_some', contents_toDecay, contents_nextId, contents_setDecayingIn_self,
        contents_addThing_self, contents_updateThing_self, contents_removeThing_ne,
        containsCyl_setContents, containsCyl_nextId, containsCyl_removeThing,
        containsCyl_updateThing, containsCyl_addThing, containsCyl_setDecayingIn, hkt, hfr,
        listFind_setDecayingList_count, listFind_append_left, hfind, hndt, hmemti,
        ItemT_count_set_typecount]))
  · rw [if_neg hp]
    simp only
    split_ifs <;>
      (try contradiction) <;>
      simp [findIn_eq_listFind, -Option.map_eq_some', contents_toDecay, contents_nextId, contents_setDecayingIn_self,
        contents_addThing_self, contents_updateThing_self, contents_removeThing_ne,
        containsCyl_setContents, containsCyl_nextId, containsCyl_removeThing,
        containsCyl_updateThing, containsCyl_addThing, containsCyl_setDecayingIn, hkt, hfr,
        listFind_setDecayingList_count, listFind_append_left, hfind, hndt, hmemti,
        ItemT_count_set_typecount] <;>
      (try (split_ifs <;>
        simp [findIn_eq_listFind, -Option.map_eq_some', contents_toDecay, contents_nextId, contents_setDecayingIn_self,
        contents_addThing_self, contents_updateThing_self, contents_removeThing_ne,
        containsCyl_setContents, containsCyl_nextId, containsCyl_removeThing,
        containsCyl_updateThing, containsCyl_addThing, containsCyl_setDecayingIn, hkt, hfr,
        listFind_setDecayingList_count, listFind_append_left, hfind, hndt, hmemti,
        ItemT_count_set_typecount]))

set_option maxHeartbeats 4000000 in
theorem moveCommit_find_clone (P : Policy) (w : World) (fromCyl toCyl₀ : Nat)
    (index₀ : Int) (item : ItemT) (count : Nat) (flags₀ : Nat) (tradeItem : Option Nat)
    (rd : DestRes) (rm : ReturnValue) (mq : Nat)
    (h : MovePath P w fromCyl toCyl₀ index₀ item count flags₀ tradeItem rd rm mq)
    (hrne : rd.cyl ≠ fromCyl) (hkt : containsCyl w rd.cyl = true)
    (hndt : ((w.contents rd.cyl).map ItemT.id).Nodup)
    (ti : ItemT) (hto : rd.toItem = some ti) (hmemti : ti ∈ w.contents rd.cyl)
    (heqt : itemEquals item ti = true) (hst : item.stackable = true)
    (hfresh : ∀ x ∈ w.contents rd.cyl, x.id ≠ w.nextId)
    (hlt : min (ti.stackSize - ti.count) (min count mq) < min count mq) :
    ((internalMoveItem P w fromCyl toCyl₀ index₀ item count flags₀ false
        tradeItem).world.findIn rd.cyl w.nextId).map (fun x => x.count) =
      some (min count mq - min (ti.stackSize - ti.count) (min count mq)) := by
  obtain ⟨hres, hni, hQA, hmc, hcond, hqr, htr⟩ := h
  have hfr : fromCyl ≠ rd.cyl := fun hh => hrne hh.symm
  have hni2 : ti.id ≠ item.id := by
    intro hh
    exact hni (by rw [hto]; simp [hh])
  have hqr2 : P.queryRemove w fromCyl item (min count mq) rd.flags = ReturnValue.noError := by
    simpa [hst] using hqr
  have hupd : ∀ (t c : Nat), ∀ y ∈ updateList ti.id t c (w.contents rd.cyl),
      y.id ≠ w.nextId := by
    intro t c y hy
    obtain ⟨z, hz, hzy⟩ := updateList_id_mem ti.id t c (w.contents rd.cyl) y hy
    rw [hzy]
    exact hfresh z hz
  have happ : ∀ (t c : Nat) (x : ItemT), x.id = w.nextId →
      listFind w.nextId (updateList ti.id t c (w.contents rd.cyl) ++ [x]) = some x := by
    intro t c x hx
    rw [listFind_append_right _ _ _ (hupd t c), if_pos hx]
  simp [internalMoveItem, hres, hQA, hmc, hqr, hqr2, htr, hni, hcond, hst, hto, heqt, hni2,
    -Option.map_eq_some']
  by_cases hp : mq < count
  · rw [if_pos hp]
    simp only
    split_ifs <;>
      (try contradiction) <;>
      (try omega) <;>
      simp [findIn_eq_listFind, -Option.map_eq_some', contents_toDecay, contents_nextId,
        contents_setDecayingIn_self, contents_addThing_self, contents_updateThing_self,
        contents_removeThing_ne, containsCyl_setContents, containsCyl_nextId,
        containsCyl_removeThing, containsCyl_updateThing, containsCyl_addThing,
        containsCyl_setDecayingIn, hkt, hfr, listFind_setDecayingList_count,
        nextId_removeThing, nextId_updateThing, happ, ItemT_count_set_idcount] <;>
      (try (split_ifs <;>
        simp [findIn_eq_listFind, -Option.map_eq_some', contents_toDecay, contents_nextId,
          contents_setDecayingIn_self, contents_addThing_self, contents_updateThing_self,
          contents_removeThing_ne, containsCyl_setContents, containsCyl_nextId,
          containsCyl_removeThing, containsCyl_updateThing, containsCyl_addThing,
          containsCyl_setDecayingIn, hkt, hfr, listFind_setDecayingList_count,
          nextId_removeThing, nextId_updateThing, happ, ItemT_count_set_idcount])) <;>
      (try omega)
  · rw [if_neg hp]
    simp only
    split_ifs <;>
      (try contradiction) <;>
      (try omega) <;>
      simp [findIn_eq_listFind, -Option.map_eq_some', contents_toDecay, contents_nextId,
        contents_setDecayingIn_self, contents_addThing_self, contents_updateThing_self,
        contents_removeThing_ne, containsCyl_setContents, containsCyl_nextId,
        containsCyl_removeThing, containsCyl_updateThing, containsCyl_addThing,
        containsCyl_setDecayingIn, hkt, hfr, listFind_setDecayingList_count,
        nextId_removeThing, nextId_updateThing, happ, ItemT_count_set_idcount] <;>
      (try (split_ifs <;>
        simp [findIn_eq_listFind, -Option.map_eq_some', contents_toDecay, contents_nextId,
          contents_setDecayingIn_self, contents_addThing_self, contents_updateThing_self,
          contents_removeThing_ne, containsCyl_setContents, containsCyl_nextId,
          containsCyl_removeThing, containsCyl_updateThing, containsCyl_addThing,
          containsCyl_setDecayingIn, hkt, hfr, listFind_setDecayingList_count,
          nextId_removeThing, nextId_updateThing, happ, ItemT_count_set_idcount])) <;>
      (try omega)

theorem contents_ite (c : Prop) [Decidable c] (w1 w2 : World) (cy : Nat) :
    (if c then w1 else w2).contents cy = if c then w1.contents cy else w2.contents cy := by
  split_ifs <;> rfl

theorem fst_ite (c : Prop) [Decidable c] {α β : Type} (a b : α × β) :
    (if c then a else b).1 = if c then a.1 else b.1 := by
  split_ifs <;> rfl

theorem snd_ite (c : Prop) [Decidable c] {α β : Type} (a b : α × β) :
    (if c then a else b).2 = if c then a.2 else b.2 := by
  split_ifs <;> rfl

theorem id_eq_of_nodup (its : List ItemT)
    (hnd : (its.map ItemT.id).Nodup) (a b : ItemT) (ha : a ∈ its) (hb : b ∈ its)
    (hab : a.id = b.id) : a = b := by
  induction its with
  | nil => cases ha
  | cons x rest ih =>
    simp only [List.map_cons, List.nodup_cons] at hnd
    rcases List.mem_cons.mp ha with rfl | ha2 <;> rcases List.mem_cons.mp hb with rfl | hb2
    · rfl
    · exact absurd (by rw [hab]; exact List.mem_map_of_mem ItemT.id hb2) hnd.1
    · exact absurd (by rw [← hab]; exact List.mem_map_of_mem ItemT.id ha2) hnd.1
    · exact ih hnd.2 ha2 hb2

set_option maxHeartbeats 16000000 in
theorem moveCommit_wf_to (P : Policy) (w : World) (fromCyl toCyl₀ : Nat)
    (index₀ : Int) (item : ItemT) (count : Nat) (flags₀ : Nat) (tradeItem : Option Nat)
    (rd : DestRes) (rm : ReturnValue) (mq : Nat)
    (h : MovePath P w fromCyl toCyl₀ index₀ item count flags₀ tradeItem rd rm mq)
    (hrne : rd.cyl ≠ fromCyl) (hkf : containsCyl w fromCyl = true)
    (hkt : containsCyl w rd.cyl = true)
    (hndt : ((w.contents rd.cyl).map ItemT.id).Nodup)
    (hti0 : ∀ ti, rd.toItem = some ti → ti ∈ w.contents rd.cyl)
    (hwf_f : wfList (w.contents fromCyl)) (hwf_t : wfList (w.contents rd.cyl))
    (hmemf : item ∈ w.contents fromCyl) (hcount : count ≤ item.count) :
    wfList ((internalMoveItem P w fromCyl toCyl₀ index₀ item count flags₀ false
        tradeItem).world.contents rd.cyl) := by
  obtain ⟨hres, hni, hQA, hmc, hcond, hqr, htr⟩ := h
  have hfr : fromCyl ≠ rd.cyl := fun hh => hrne hh.symm
  have hitemb := hwf_f item hmemf
  simp [internalMoveItem, hres, hQA, hmc, hqr, htr, hni, hcond]
  by_cases hp : item.stackable = true ∧ mq < count
  · rw [if_pos hp]
    rcases hto : rd.toItem with _ | ti
    · simp only [hto]
      simp [contents_ite, fst_ite, snd_ite, contents_toDecay, contents_nextId,
        contents_setDecayingIn_self, contents_addThing_self, contents_updateThing_self,
        contents_removeThing_ne, containsCyl_setContents, containsCyl_nextId,
        containsCyl_removeThing, containsCyl_updateThing, containsCyl_addThing,
        containsCyl_setDecayingIn, hkt, hfr, nextId_removeThing, nextId_updateThing]
      split_ifs <;>
        (try exact hwf_t) <;>
        (try (simp [contents_ite, fst_ite, snd_ite, contents_toDecay, contents_nextId,
            contents_setDecayingIn_self, contents_addThing_self, contents_updateThing_self,
            contents_removeThing_ne, containsCyl_setContents, containsCyl_nextId,
            containsCyl_removeThing, containsCyl_updateThing, containsCyl_addThing,
            containsCyl_setDecayingIn, hkt, hfr, nextId_removeThing, nextId_updateThing])) <;>
        (try split_ifs) <;>
        (try (simp [contents_ite, fst_ite, snd_ite, contents_toDecay, contents_nextId,
            contents_setDecayingIn_self, contents_addThing_self, contents_updateThing_self,
            contents_removeThing_ne, containsCyl_setContents, containsCyl_nextId,
            containsCyl_removeThing, containsCyl_updateThing, containsCyl_addThing,
            containsCyl_setDecayingIn, hkt, hfr, nextId_removeThing, nextId_updateThing])) <;>
        (try exact hwf_t) <;>
        (try (apply wfList_setDecayingList)) <;>
        (try (first
          | exact hwf_t
          | apply wfList_append_one _ _ hwf_t)) <;>
        (try (simp only [])) <;>
        (try simp) <;>
        (try omega) <;>
        (try exact hwf_t)
    · have hmemti := hti0 ti hto
      have htib := hwf_t ti hmemti
      have hupd : wfList (updateList ti.id ti.itemType
          (ti.count + (ti.stackSize - ti.count) ⊓ (count ⊓ mq)) (w.contents rd.cyl)) := by
        apply wfList_updateList _ _ _ _ hwf_t (by omega)
        intro x hx hxe
        have hxt : x = ti := id_eq_of_nodup _ hndt x ti hx hmemti hxe
        subst hxt
        omega
      simp only [hto]
      by_cases heqt : itemEquals item ti = true
      · simp only [heqt]
        simp [hp.1, contents_ite, fst_ite, snd_ite, contents_toDecay, contents_nextId,
          contents_setDecayingIn_self, contents_addThing_self, contents_updateThing_self,
          contents_removeThing_ne, containsCyl_setContents, containsCyl_nextId,
          containsCyl_removeThing, containsCyl_updateThing, containsCyl_addThing,
          containsCyl_setDecayingIn, hkt, hfr, nextId_removeThing, nextId_updateThing]
        split_ifs <;>
          (try exact hwf_t) <;>
          (try exact hupd) <;>
          (try (simp [hp.1, contents_ite, fst_ite, snd_ite, contents_toDecay, contents_nextId,
              contents_setDecayingIn_self, contents_addThing_self, contents_updateThing_self,
              contents_removeThing_ne, containsCyl_setContents, containsCyl_nextId,
              containsCyl_removeThing, containsCyl_updateThing, containsCyl_addThing,
              containsCyl_setDecayingIn, hkt, hfr, nextId_removeThing, nextId_updateThing])) <;>
          (try split_ifs) <;>
          (try (simp [hp.1, contents_ite, fst_ite, snd_ite, contents_toDecay, contents_nextId,
              contents_setDecayingIn_self, contents_addThing_self, contents_updateThing_self,
              contents_removeThing_ne, containsCyl_setContents, containsCyl_nextId,
              containsCyl_removeThing, containsCyl_updateThing, containsCyl_addThing,
              containsCyl_setDecayingIn, hkt, hfr, nextId_removeThing, nextId_updateThing])) <;>
          (try exact hwf_t) <;>
          (try exact hupd) <;>
          (try (apply wfList_setDecayingList)) <;>
          (try (first
            | exact hwf_t
            | exact hupd
            | apply wfList_append_one _ _ hupd
            | apply wfList_append_one _ _ hwf_t)) <;>
          (try (simp only [])) <;>
          (try simp) <;>
          (try omega) <;>
          (try exact hwf_t) <;>
          (try exact hupd)
      · have heqf : itemEquals item ti = false := by
          cases hb : itemEquals item ti with
          | false => rfl
          | true => exact absurd hb heqt
        simp only [heqf]
        simp [hp.1, contents_ite, fst_ite, snd_ite, contents_toDecay, contents_nextId,
          contents_setDecayingIn_self, contents_addThing_self, contents_updateThing_self,
          contents_removeThing_ne, containsCyl_setContents, containsCyl_nextId,
          containsCyl_removeThing, containsCyl_updateThing, containsCyl_addThing,
          containsCyl_setDecayingIn, hkt, hfr, nextId_removeThing, nextId_updateThing]
        split_ifs <;>
          (try exact hwf_t) <;>
          (try (simp [hp.1, contents_ite, fst_ite, snd_ite, contents_toDecay, contents_nextId,
              contents_setDecayingIn_self, contents_addThing_self, contents_updateThing_self,
              contents_removeThing_ne, containsCyl_setContents, containsCyl_nextId,
              containsCyl_removeThing, containsCyl_updateThing, containsCyl_addThing,
              containsCyl_setDecayingIn, hkt, hfr, nextId_removeThing, nextId_updateThing])) <;>
          (try split_ifs) <;>
          (try (simp [hp.1, contents_ite, fst_ite, snd_ite, contents_toDecay, contents_nextId,
              contents_setDecayingIn_self, contents_addThing_self, contents_updateThing_self,
              contents_removeThing_ne, containsCyl_setContents, containsCyl_nextId,
              containsCyl_removeThing, containsCyl_updateThing, containsCyl_addThing,
              containsCyl_setDecayingIn, hkt, hfr, nextId_removeThing, nextId_updateThing])) <;>
          (try exact hwf_t) <;>
          (try (apply wfList_setDecayingList)) <;>
          (try (first
            | exact hwf_t
            | apply wfList_append_one _ _ hwf_t)) <;>
          (try (simp only [])) <;>
          (try simp) <;>
          (try omega) <;>
          (try exact hwf_t)
  · rw [if_neg hp]
    rcases hto : rd.toItem with _ | ti
    · simp only [hto]
      simp [contents_ite, fst_ite, snd_ite, contents_toDecay, contents_nextId,
        contents_setDecayingIn_self, contents_addThing_self, contents_updateThing_self,
        contents_removeThing_ne, containsCyl_setContents, containsCyl_nextId,
        containsCyl_removeThing, containsCyl_updateThing, containsCyl_addThing,
        containsCyl_setDecayingIn, hkt, hfr, nextId_removeThing, nextId_updateThing]
      split_ifs <;>
        (try exact hwf_t) <;>
        (try (simp [contents_ite, fst_ite, snd_ite, contents_toDecay, contents_nextId,
            contents_setDecayingIn_self, contents_addThing_self, contents_updateThing_self,
            contents_removeThing_ne, containsCyl_setContents, containsCyl_nextId,
            containsCyl_removeThing, containsCyl_updateThing, containsCyl_addThing,
            containsCyl_setDecayingIn, hkt, hfr, nextId_removeThing, nextId_updateThing])) <;>
        (try split_ifs) <;>
        (try (simp [contents_ite, fst_ite, snd_ite, contents_toDecay, contents_nextId,
            contents_setDecayingIn_self, contents_addThing_self, contents_updateThing_self,
            contents_removeThing_ne, containsCyl_setContents, containsCyl_nextId,
            containsCyl_removeThing, containsCyl_updateThing, containsCyl_addThing,
            containsCyl_setDecayingIn, hkt, hfr, nextId_removeThing, nextId_updateThing])) <;>
        (try exact hwf_t) <;>
        (try (apply wfList_setDecayingList)) <;>
        (try (first
          | exact hwf_t
          | apply wfList_append_one _ _ hwf_t)) <;>
        (try (simp only [])) <;>
        (try simp) <;>
        (try omega) <;>
        (try exact hwf_t)
    · have hmemti := hti0 ti hto
      have htib := hwf_t ti hmemti
      have hupd : wfList (updateList ti.id ti.itemType
          (ti.count + (ti.stackSize - ti.count) ⊓ (count ⊓ mq)) (w.contents rd.cyl)) := by
        apply wfList_updateList _ _ _ _ hwf_t (by omega)
        intro x hx hxe
        have hxt : x = ti := id_eq_of_nodup _ hndt x ti hx hmemti hxe
        subst hxt
        omega
      simp only [hto]
      by_cases heqt : itemEquals item ti = true
      · simp only [heqt]
        by_cases hst : item.stackable = true
        · simp [hst, contents_ite, fst_ite, snd_ite, contents_toDecay, contents_nextId,
            contents_setDecayingIn_self, contents_addThing_self, contents_updateThing_self,
            contents_removeThing_ne, containsCyl_setContents, containsCyl_nextId,
            containsCyl_removeThing, containsCyl_updateThing, containsCyl_addThing,
            containsCyl_setDecayingIn, hkt, hfr, nextId_removeThing, nextId_updateThing]
          split_ifs <;>
            (try exact hwf_t) <;>
            (try exact hupd) <;>
            (try (simp [hst, contents_ite, fst_ite, snd_ite, contents_toDecay, contents_nextId,
                contents_setDecayingIn_self, contents_addThing_self, contents_updateThing_self,
                contents_removeThing_ne, containsCyl_setContents, containsCyl_nextId,
                containsCyl_removeThing, containsCyl_updateThing, containsCyl_addThing,
                containsCyl_setDecayingIn, hkt, hfr, nextId_removeThing, nextId_updateThing])) <;>
            (try split_ifs) <;>
            (try (simp [hst, contents_ite, fst_ite, snd_ite, contents_toDecay, contents_nextId,
                contents_setDecayingIn_self, contents_addThing_self, contents_updateThing_self,
                contents_removeThing_ne, containsCyl_setContents, containsCyl_nextId,
                containsCyl_removeThing, containsCyl_updateThing, containsCyl_addThing,
                containsCyl_setDecayingIn, hkt, hfr, nextId_removeThing, nextId_updateThing])) <;>
            (try exact hwf_t) <;>
            (try exact hupd) <;>
            (try (apply wfList_setDecayingList)) <;>
            (try (first
              | exact hwf_t
              | exact hupd
              | apply wfList_append_one _ _ hupd
              | apply wfList_append_one _ _ hwf_t)) <;>
            (try (simp only [])) <;>
            (try simp) <;>
            (try omega) <;>
            (try exact hwf_t) <;>
            (try exact hupd)
        · have hstf : item.stackable = false := by
            cases hb : item.stackable with
            | false => rfl
            | true => exact absurd hb hst
          simp [hstf, contents_ite, fst_ite, snd_ite, contents_toDecay, contents_nextId,
            contents_setDecayingIn_self, contents_addThing_self, contents_updateThing_self,
            contents_removeThing_ne, containsCyl_setContents, containsCyl_nextId,
            containsCyl_removeThing, containsCyl_updateThing, containsCyl_addThing,
            containsCyl_setDecayingIn, hkt, hfr, nextId_removeThing, nextId_updateThing]
          split_ifs <;>
            (try exact hwf_t) <;>
            (try (simp [hstf, contents_ite, fst_ite, snd_ite, contents_toDecay, contents_nextId,
                contents_setDecayingIn_self, contents_addThing_self, contents_updateThing_self,
                contents_removeThing_ne, containsCyl_setContents, containsCyl_nextId,
                containsCyl_removeThing, containsCyl_updateThing, containsCyl_addThing,
                containsCyl_setDecayingIn, hkt, hfr, nextId_removeThing, nextId_updateThing])) <;>
            (try split_ifs) <;>
            (try (simp [hstf, contents_ite, fst_ite, snd_ite, contents_toDecay, contents_nextId,
                contents_setDecayingIn_self, contents_addThing_self, contents_updateThing_self,
                contents_removeThing_ne, containsCyl_setContents, containsCyl_nextId,
                containsCyl_removeThing, containsCyl_updateThing, containsCyl_addThing,
                containsCyl_setDecayingIn, hkt, hfr, nextId_removeThing, nextId_updateThing])) <;>
            (try exact hwf_t) <;>
            (try (apply wfList_setDecayingList)) <;>
            (try (first
              | exact hwf_t
              | apply wfList_append_one _ _ hwf_t)) <;>
            (try (simp only [])) <;>
            (try simp) <;>
            (try omega) <;>
            (try exact hwf_t)
      · have heqf : itemEquals item ti = false := by
          cases hb : itemEquals item ti with
          | false => rfl
          | true => exact absurd hb heqt
        simp only [heqf]
        simp [contents_ite, fst_ite, snd_ite, contents_toDecay, contents_nextId,
          contents_setDecayingIn_self, contents_addThing_self, contents_updateThing_self,
          contents_removeThing_ne, containsCyl_setContents, containsCyl_nextId,
          containsCyl_removeThing, containsCyl_updateThing, containsCyl_addThing,
          containsCyl_setDecayingIn, hkt, hfr, nextId_removeThing, nextId_updateThing]
        split_ifs <;>
          (try exact hwf_t) <;>
          (try (simp [contents_ite, fst_ite, snd_ite, contents_toDecay, contents_nextId,
              contents_setDecayingIn_self, contents_addThing_self, contents_updateThing_self,
              contents_removeThing_ne, containsCyl_setContents, containsCyl_nextId,
              containsCyl_removeThing, containsCyl_updateThing, containsCyl_addThing,
              containsCyl_setDecayingIn, hkt, hfr, nextId_removeThing, nextId_updateThing])) <;>
          (try split_ifs) <;>
          (try (simp [contents_ite, fst_ite, snd_ite, contents_toDecay, contents_nextId,
              contents_setDecayingIn_self, contents_addThing_self, contents_updateThing_self,
              contents_removeThing_ne, containsCyl_setContents, containsCyl_nextId,
              containsCyl_removeThing, containsCyl_updateThing, containsCyl_addThing,
              containsCyl_setDecayingIn, hkt, hfr, nextId_removeThing, nextId_updateThing])) <;>
          (try exact hwf_t) <;>
          (try (apply wfList_setDecayingList)) <;>
          (try (first
            | exact hwf_t
            | apply wfList_append_one _ _ hwf_t)) <;>
          (try (simp only [])) <;>
          (try simp) <;>
          (try omega) <;>
          (try exact hwf_t)

theorem resolveDestAux_calls (P : Policy) (w : World) (item : ItemT) :
    ∀ (fuel toCyl : Nat) (index : Int) (flags : Nat),
      (resolveDestAux P w item fuel toCyl index flags).calls ≤ fuel + 1 := by
  intro fuel
  induction fuel with
  | zero =>
    intro toCyl index flags
    rw [resolveDestAux]
    split_ifs <;> simp
  | succ f ih =>
    intro toCyl index flags
    rw [resolveDestAux]
    split_ifs with hq
    · simp
    · simp only
      have := ih (P.queryDestination w toCyl index item flags).1
        (P.queryDestination w toCyl index item flags).2.2 0
      omega

/-- C8: destination resolution in `internalMoveItem` makes at most
`MAP_MAX_LAYERS` `queryDestination` calls, for every policy — including
one modelling a cyclic or malformed parent chain that never returns its
own argument. -/
theorem claim_C8 (P : Policy) (w : World) (item : ItemT) (toCyl : Nat) (index : Int)
    (flags : Nat) : (resolveDest P w item toCyl index flags).calls ≤ MAP_MAX_LAYERS := by
  have h := resolveDestAux_calls P w item (MAP_MAX_LAYERS - 1) toCyl index flags
  rw [resolveDest]
  simp only [MAP_MAX_LAYERS] at h ⊢
  omega
/-- C4: if the resolved destination already holds the very item being
moved, `internalMoveItem` returns success, leaves the world unchanged,
and fires no notifications. -/
theorem claim_C4 (P : Policy) (w : World) (fromCyl toCyl₀ : Nat) (index₀ : Int)
    (item : ItemT) (count : Nat) (flags₀ : Nat) (actorPlayer : Bool)
    (tradeItem : Option Nat)
    (hhook : ¬(actorPlayer = true ∧ P.hookOnMoveItem ≠ ReturnValue.noError))
    (hsame : (resolveDest P w item toCyl₀ index₀ flags₀).toItem.map (fun it => it.id) =
      some item.id) :
    internalMoveItem P w fromCyl toCyl₀ index₀ item count flags₀ actorPlayer tradeItem =
      ⟨ReturnValue.noError, w, [], none⟩ := by
  rw [internalMoveItem]
  rw [if_neg hhook]
  simp [hsame]

/-- C10: `internalAddItem` returns the not-possible outcome and mutates
nothing when the destination holder or the item is null, and a test-mode
call stops after validation without mutating the world or enrolling
anything for decay. -/
theorem claim_C10 (P : Policy) (w : World) (index : Int) (flags : Nat) :
    (∀ item test, internalAddItem P w none item index flags test =
      (ReturnValue.notPossible, w, [], 0)) ∧
    (∀ toCyl test, internalAddItem P w toCyl none index flags test =
      (ReturnValue.notPossible, w, [], 0)) ∧
    (∀ c it, (internalAddItem P w (some c) (some it) index flags true).2.1 = w ∧
      (internalAddItem P w (some c) (some it) index flags true).2.2.1 = []) := by
  refine ⟨fun item test => by cases item <;> rfl, fun toCyl test => by cases toCyl <;> rfl,
    fun c it => ?_⟩
  rw [internalAddItem, internalAddItemGo]
  split_ifs <;> simp <;> (try (split_ifs <;> simp))
/-- C5 (amended): an item enrolled with duration `d` and granularity
`EVENT_DECAYINTERVAL` decays within at most `ceil(d / g)` scheduler
ticks; the half-tick rounding of re-bucketing can fire it earlier, so
"exactly, never early" does not hold. -/
theorem claim_C5 (i d L : Nat) (hL : L < 4) (hd : 1 ≤ d) :
    decaysWithin ⟨i, d, true⟩ L (ceilDiv d EVENT_DECAYINTERVAL) :=
  decay_within_bound i d L hL hd

theorem claim_C5_witness :
    (0 : Nat) < 4 ∧ 1 ≤ 500 ∧ decaysWithin ⟨7, 500, true⟩ 0 (ceilDiv 500 EVENT_DECAYINTERVAL) :=
  ⟨by decide, by decide, claim_C5 7 500 0 (by decide) (by decide)⟩

/-- C5 counterexample: duration 500 at granularity 250 decays after a
single tick, earlier than `ceil(500 / 250) = 2`, refuting "after exactly
`ceil(d / g)` ticks, never earlier". -/
theorem claim_C5_counterexample :
    ¬ (∀ (i d L n : Nat), L < 4 → 1 ≤ d → decaysWithin ⟨i, d, true⟩ L n →
        ceilDiv d EVENT_DECAYINTERVAL ≤ n) := by
  intro h
  exact absurd (h 7 500 0 1 (by decide) (by decide) (by decide)) (by decide)
/-- C7 (amended): a non-test removal that empties a decayable item
de-enrolls it from decay bucket 0 only: `decayItems->remove(item)` acts
on the first bucket of the array, so the other buckets keep whatever
they hold. -/
theorem claim_C7 (P : Policy) (w : World) (item : ItemT) (cyl : Nat) (flags : Nat)
    (hpar : findParent w item.id = some cyl)
    (hqr : P.queryRemove w cyl item item.count (flags ||| FLAG_IGNORENOTMOVEABLE) =
      ReturnValue.noError)
    (hcr : item.canRemove = true) (hcd : item.canDecay = true)
    (hrem : (removeThing w cyl item.id item.count).isRemoved item.id = true) :
    (internalRemoveItem P w item (-1) false flags).2.1.decayBuckets =
      removeFromFirstBucket w.decayBuckets item.id ∧
    item.id ∉ ((internalRemoveItem P w item (-1) false flags).2.1.decayBuckets).headD [] := by
  have hbase : (internalRemoveItem P w item (-1) false flags).2.1.decayBuckets =
      removeFromFirstBucket w.decayBuckets item.id := by
    rw [internalRemoveItem, hpar]
    simp only [removeThing, World.setContents] at hrem
    simp [hqr, hcr, hcd, removeThing, World.setContents, hrem]
  refine ⟨hbase, ?_⟩
  rw [hbase]
  cases w.decayBuckets with
  | nil => simp [removeFromFirstBucket]
  | cons b0 rest => simp [removeFromFirstBucket]
/-- All-permissive policy used by concrete scenarios: every query
succeeds and `queryDestination` resolves to the asked cylinder, with the
cylinder's first item as the destination item. -/
def polOpen : Policy where
  queryAdd := fun _ _ _ _ _ _ => ReturnValue.noError
  queryMaxCount := fun _ _ _ _ c _ => (ReturnValue.noError, c)
  queryRemove := fun _ _ _ _ _ => ReturnValue.noError
  queryDestination := fun w c i _ _ => (c, (w.contents c).head?, i)
  hookOnMoveItem := ReturnValue.noError
  hookOnMoveItemExchange := ReturnValue.noError

def itemC7 : ItemT := ⟨9, 5, 0, 2, true, 100, 0, true, true, true⟩

def wC7 : World := ⟨[(1, [itemC7])], [], [], [[], [9], [], []], [], 50⟩

def wC7w : World := ⟨[(1, [itemC7])], [], [], [[9], [], [], []], [], 50⟩

theorem claim_C7_witness :
    (internalRemoveItem polOpen wC7w itemC7 (-1) false 0).2.1.decayBuckets =
      removeFromFirstBucket wC7w.decayBuckets 9 ∧
    9 ∉ ((internalRemoveItem polOpen wC7w itemC7 (-1) false 0).2.1.decayBuckets).headD [] :=
  claim_C7 polOpen wC7w itemC7 1 0 (by decide) (by decide) (by decide) (by decide) (by decide)

/-- C7 counterexample: item 9 is enrolled in decay bucket 1; a full
removal leaves it enrolled there, because de-enrollment touches bucket 0
only — the claim that it is de-enrolled from whichever bucket holds it
fails. -/
theorem claim_C7_counterexample :
    ¬ (∀ (P : Policy) (w : World) (item : ItemT) (flags : Nat),
        (internalRemoveItem P w item (-1) false flags).2.1.isRemoved item.id = true →
        item.canDecay = true →
        ∀ b ∈ (internalRemoveItem P w item (-1) false flags).2.1.decayBuckets,
          item.id ∉ b) := by
  intro h
  have h2 := h polOpen wC7 itemC7 0 (by decide) (by decide) [9] (by decide)
  exact h2 (by decide)

def itemC4 : ItemT := ⟨1, 2, 0, 3, true, 100, 0, false, false, true⟩

def wC4 : World := ⟨[(1, [itemC4]), (2, [])], [], [], [[], [], [], []], [], 50⟩

theorem claim_C4_witness :
    internalMoveItem polOpen wC4 1 1 0 itemC4 3 0 false none =
      ⟨ReturnValue.noError, wC4, [], none⟩ :=
  claim_C4 polOpen wC4 1 1 0 itemC4 3 0 false none (by decide) (by decide)
/-- C9 (amended): a non-diagonal player step from a height-3 tile with
an open tile overhead and walkable ground above the destination ascends
one level, ORs the two blocking-override flags in, and turns the player
to the move direction — provided the source floor is not the first
underground level (`z = 8`), which the code additionally excludes, and
the tile above the destination is not a floor-change tile. -/
theorem claim_C9 (gmap : Position → Option TileT) (pos : Position) (dir : Direction)
    (flags₀ : Nat) (t : TileT)
    (hdiag : dir.isDiagonal = false)
    (hz8 : pos.z ≠ 8) (hz1 : 1 ≤ pos.z)
    (hh3 : tileHeight3 (gmap pos) = true)
    (hopen : tileOpenAbove (gmap ⟨pos.x, pos.y, pos.z - 1⟩) = true)
    (hdest : gmap ⟨(getNextPosition dir pos).x, (getNextPosition dir pos).y, pos.z - 1⟩ =
      some t)
    (hg : t.hasGround = true) (him : t.immovableBlockSolid = false)
    (hfc : t.floorChange = false) :
    moveCreatureStep gmap true pos dir flags₀ =
      ({ getNextPosition dir pos with z := pos.z - 1 },
        flags₀ ||| (FLAG_IGNOREBLOCKITEM ||| FLAG_IGNOREBLOCKCREATURE), some dir) := by
  have hdz : (getNextPosition dir pos).z = pos.z := by cases dir <;> rfl
  have hne : ¬(pos.z = pos.z - 1) := by omega
  rw [moveCreatureStep]
  simp [hdiag, hz8, hh3, hopen, hdz, hdest, hg, him, hfc, hne]
/-- Tile map of the ascent scenario: the player stands at (10,10,7) on
height-3 ground, the tile overhead is absent, and the tile above the
eastern destination has walkable ground. -/
def gmC9 : Position → Option TileT := fun p =>
  if p = ⟨10, 10, 7⟩ then some ⟨true, false, false, false, true⟩
  else if p = ⟨11, 10, 6⟩ then some ⟨true, false, false, false, false⟩
  else none

theorem claim_C9_witness :
    moveCreatureStep gmC9 true ⟨10, 10, 7⟩ Direction.east 0 =
      ({ getNextPosition Direction.east ⟨10, 10, 7⟩ with z := 7 - 1 },
        0 ||| (FLAG_IGNOREBLOCKITEM ||| FLAG_IGNOREBLOCKCREATURE), some Direction.east) :=
  claim_C9 gmC9 ⟨10, 10, 7⟩ Direction.east 0 ⟨true, false, false, false, false⟩
    (by decide) (by decide) (by decide) (by decide) (by decide) (by decide)
    (by decide) (by decide) (by decide)

/-- Same scenario shifted to the first underground floor: all the
height/ground conditions of the claim hold at z = 8, yet the code's
extra `currentPos.z != 8` guard keeps the creature on its level. -/
def gmC9x : Position → Option TileT := fun p =>
  if p = ⟨10, 10, 8⟩ then some ⟨true, false, false, false, true⟩
  else if p = ⟨11, 10, 7⟩ then some ⟨true, false, false, false, false⟩
  else none

/-- C9 counterexample: the claimed ascent conditions (height-3 ground,
open overhead, walkable ground above the destination) are met at
z = 8, but no ascent happens — the code requires `z ≠ 8` on top of the
claimed conditions. -/
theorem claim_C9_counterexample :
    ¬ (∀ (gmap : Position → Option TileT) (pos : Position) (dir : Direction)
        (flags₀ : Nat) (t : TileT),
        dir.isDiagonal = false → 1 ≤ pos.z →
        tileHeight3 (gmap pos) = true →
        tileOpenAbove (gmap ⟨pos.x, pos.y, pos.z - 1⟩) = true →
        gmap ⟨(getNextPosition dir pos).x, (getNextPosition dir pos).y, pos.z - 1⟩ = some t →
        t.hasGround = true → t.immovableBlockSolid = false → t.floorChange = false →
        (moveCreatureStep gmap true pos dir flags₀).1.z = pos.z - 1) := by
  intro h
  have h2 := h gmC9x ⟨10, 10, 8⟩ Direction.east 0 ⟨true, false, false, false, false⟩
    (by decide) (by decide) (by decide) (by decide) (by decide) (by decide)
    (by decide) (by decide)
  exact absurd h2 (by decide)
/-- C2 (amended): in the needs-exchange path, the checks that do abort
the whole operation before any mutation are the reciprocal `queryAdd`
on the source and the availability gate on `queryMaxCount` (error
outcome together with zero availability): either failure returns that
outcome with the world untouched and no notifications. A failing
`queryRemove` on the destination does NOT abort — see the
counterexample. -/
theorem claim_C2 (P : Policy) (w : World) (fromCyl toCyl₀ : Nat) (index₀ : Int)
    (item : ItemT) (count : Nat) (flags₀ : Nat) (tradeItem : Option Nat)
    (rd : DestRes) (tv : ItemT) (retA rm2 : ReturnValue) (mq2 : Nat)
    (hres : resolveDest P w item toCyl₀ index₀ flags₀ = rd)
    (hni : rd.toItem.map (fun it => it.id) ≠ some item.id)
    (hto : rd.toItem = some tv)
    (hQA : P.queryAdd w rd.cyl rd.index item count rd.flags = ReturnValue.needExchange)
    (hA : P.queryAdd w fromCyl (getThingIndex w fromCyl item.id) tv tv.count 0 = retA)
    (hmc : P.queryMaxCount w fromCyl INDEX_WHEREEVER tv tv.count 0 = (rm2, mq2)) :
    (retA ≠ ReturnValue.noError →
      internalMoveItem P w fromCyl toCyl₀ index₀ item count flags₀ false tradeItem =
        ⟨retA, w, [], none⟩) ∧
    (retA = ReturnValue.noError → rm2 ≠ ReturnValue.noError → mq2 = 0 →
      internalMoveItem P w fromCyl toCyl₀ index₀ item count flags₀ false tradeItem =
        ⟨rm2, w, [], none⟩) := by
  have hni2 : tv.id ≠ item.id := fun hh => hni (by rw [hto]; simp [hh])
  constructor
  · intro hra
    simp [internalMoveItem, hres, hni, hni2, hto, hQA, hA, hra]
  · intro hra hrm hmq
    subst hra hmq
    simp [internalMoveItem, hres, hni, hni2, hto, hQA, hA, hmc, hrm]
def itemC2 : ItemT := ⟨1, 2, 0, 3, true, 100, 0, false, false, true⟩

def itemC2b : ItemT := ⟨9, 3, 0, 2, true, 100, 0, false, false, true⟩

/-- Policy of the exchange scenarios: cylinder 2 always answers
needs-exchange to `queryAdd` and refuses `queryRemove`; every other
cylinder accepts everything. -/
def polC2 : Policy where
  queryAdd := fun _ c _ _ _ _ =>
    if c = 2 then ReturnValue.needExchange else ReturnValue.noError
  queryMaxCount := fun _ _ _ _ c _ => (ReturnValue.noError, c)
  queryRemove := fun _ c _ _ _ =>
    if c = 2 then ReturnValue.notPossible else ReturnValue.noError
  queryDestination := fun w c i _ _ => (c, (w.contents c).head?, i)
  hookOnMoveItem := ReturnValue.noError
  hookOnMoveItemExchange := ReturnValue.noError

def wC2 : World := ⟨[(1, [itemC2]), (2, [itemC2b])], [], [], [[], [], [], []], [], 50⟩

/-- C2 counterexample: the destination answers needs-exchange and then
refuses `queryRemove` for the colliding item, so the reciprocal move
fails one of the claimed checks — yet the operation carries on and
commits a move, mutating the world instead of aborting unchanged. -/
theorem claim_C2_counterexample :
    ¬ (∀ (P : Policy) (w : World) (fromCyl toCyl₀ : Nat) (index₀ : Int) (item : ItemT)
        (count flags₀ : Nat) (tradeItem : Option Nat) (rd : DestRes) (tv : ItemT),
        resolveDest P w item toCyl₀ index₀ flags₀ = rd →
        rd.toItem = some tv →
        P.queryAdd w rd.cyl rd.index item count rd.flags = ReturnValue.needExchange →
        P.queryRemove w rd.cyl tv tv.count rd.flags ≠ ReturnValue.noError →
        (internalMoveItem P w fromCyl toCyl₀ index₀ item count flags₀ false
            tradeItem).world = w) := by
  intro h
  have h2 := h polC2 wC2 1 2 0 itemC2 3 0 none ⟨2, some itemC2b, 0, 0, 1⟩ itemC2b
    (by decide) (by decide) (by decide) (by decide)
  exact absurd h2 (by decide)

/-- Policy of the C2 witness: cylinder 2 answers needs-exchange and
cylinder 1 refuses the reciprocal `queryAdd`. -/
def polC2w : Policy where
  queryAdd := fun _ c _ _ _ _ =>
    if c = 2 then ReturnValue.needExchange else ReturnValue.notPossible
  queryMaxCount := fun _ _ _ _ c _ => (ReturnValue.noError, c)
  queryRemove := fun _ _ _ _ _ => ReturnValue.noError
  queryDestination := fun w c i _ _ => (c, (w.contents c).head?, i)
  hookOnMoveItem := ReturnValue.noError
  hookOnMoveItemExchange := ReturnValue.noError

theorem claim_C2_witness :
    internalMoveItem polC2w wC2 1 2 0 itemC2 3 0 false none =
      ⟨ReturnValue.notPossible, wC2, [], none⟩ :=
  (claim_C2 polC2w wC2 1 2 0 itemC2 3 0 none ⟨2, some itemC2b, 0, 0, 1⟩ itemC2b
      ReturnValue.notPossible ReturnValue.noError 2
      (by decide) (by decide) (by decide) (by decide) (by decide) (by decide)).1
    (by decide)
/-- C6 (amended): on the direct path (destination `queryAdd` succeeds
outright), when a trade escrow item sits on the resolved destination
or its parent chain, the move is refused with not-enough-room and the
world is untouched. When the needs-exchange path runs first, the
reciprocal move commits before this check — see the counterexample. -/
theorem claim_C6 (P : Policy) (w : World) (fromCyl toCyl₀ : Nat) (index₀ : Int)
    (item : ItemT) (count : Nat) (flags₀ t : Nat)
    (rd : DestRes) (rm : ReturnValue) (mq : Nat)
    (hres : resolveDest P w item toCyl₀ index₀ flags₀ = rd)
    (hni : rd.toItem.map (fun it => it.id) ≠ some item.id)
    (hQA : P.queryAdd w rd.cyl rd.index item count rd.flags = ReturnValue.noError)
    (hmc : P.queryMaxCount w rd.cyl rd.index item count rd.flags = (rm, mq))
    (hcond : ¬(rm ≠ ReturnValue.noError ∧ mq = 0))
    (hqr : P.queryRemove w fromCyl item
      (if item.stackable = true then min count mq else mq) rd.flags = ReturnValue.noError)
    (htrb : tradeBlocked w rd.cyl (some t) = true) :
    internalMoveItem P w fromCyl toCyl₀ index₀ item count flags₀ false (some t) =
      ⟨ReturnValue.notEnoughRoom, w, [], none⟩ := by
  simp [internalMoveItem, hres, hni, hQA, hmc, hcond, hqr, htrb]

/-- Policy of the C6 scenarios: cylinder 2 answers needs-exchange while
it still holds something, and accepts once emptied; everything else is
permissive. -/
def polC6 : Policy where
  queryAdd := fun w c _ _ _ _ =>
    if c = 2 ∧ w.contents 2 ≠ [] then ReturnValue.needExchange else ReturnValue.noError
  queryMaxCount := fun _ _ _ _ c _ => (ReturnValue.noError, c)
  queryRemove := fun _ _ _ _ _ => ReturnValue.noError
  queryDestination := fun w c i _ _ => (c, (w.contents c).head?, i)
  hookOnMoveItem := ReturnValue.noError
  hookOnMoveItemExchange := ReturnValue.noError

/-- World of the C6 counterexample: cylinder 2 is the inside of
container item 7, the trade escrow item. -/
def wC6 : World := ⟨[(1, [itemC2]), (2, [itemC2b])], [(2, 7)], [], [[], [], [], []], [], 50⟩

/-- C6 counterexample: the resolved destination is the inside of the
escrowed trade item, so the claim promises refusal without mutation;
the code does refuse (not-enough-room), but only after the
needs-exchange reciprocal move has already committed, so the world
differs from the initial one. -/
theorem claim_C6_counterexample :
    ¬ (∀ (P : Policy) (w : World) (fromCyl toCyl₀ : Nat) (index₀ : Int) (item : ItemT)
        (count flags₀ t : Nat),
        tradeBlocked w (resolveDest P w item toCyl₀ index₀ flags₀).cyl (some t) = true →
        (internalMoveItem P w fromCyl toCyl₀ index₀ item count flags₀ false
            (some t)).world = w) := by
  intro h
  have h2 := h polC6 wC6 1 2 0 itemC2 3 0 7 (by decide)
  exact absurd h2 (by decide)

/-- World of the C6 witness: as `wC6` but cylinder 2 is already empty,
so the direct path is taken and the trade check fires before any
mutation. -/
def wC6w : World := ⟨[(1, [itemC2]), (2, [])], [(2, 7)], [], [[], [], [], []], [], 50⟩

theorem claim_C6_witness :
    internalMoveItem polC6 wC6w 1 2 0 itemC2 3 0 false (some 7) =
      ⟨ReturnValue.notEnoughRoom, wC6w, [], none⟩ :=
  claim_C6 polC6 wC6w 1 2 0 itemC2 3 0 7 ⟨2, none, 0, 0, 1⟩ ReturnValue.noError 3
    (by decide) (by decide) (by decide) (by decide) (by decide) (by decide) (by decide)
/-- C3: under the committed-transfer preconditions, the destination
gains exactly `min count mq` units (`mq` the `queryMaxCount`
availability; for a non-stackable item the call convention
`mq = count = item.count = 1` makes the two cases agree); a stackable
shortfall still commits and the call returns the `queryMaxCount`
outcome — which is not plain success — while a full move returns
success. -/
theorem claim_C3 (P : Policy) (w : World) (fromCyl toCyl₀ : Nat) (index₀ : Int)
    (item : ItemT) (count : Nat) (flags₀ : Nat) (tradeItem : Option Nat)
    (rd : DestRes) (rm : ReturnValue) (mq : Nat)
    (h : MovePath P w fromCyl toCyl₀ index₀ item count flags₀ tradeItem rd rm mq)
    (hrne : rd.cyl ≠ fromCyl) (hkf : containsCyl w fromCyl = true)
    (hkt : containsCyl w rd.cyl = true)
    (hndt : ((w.contents rd.cyl).map ItemT.id).Nodup)
    (hti0 : ∀ ti, rd.toItem = some ti → ti ∈ w.contents rd.cyl)
    (hns : item.stackable = false → mq = 1 ∧ count = 1 ∧ item.count = 1)
    (hshort : mq < count → rm ≠ ReturnValue.noError) :
    (internalMoveItem P w fromCyl toCyl₀ index₀ item count flags₀ false
        tradeItem).world.totalOf rd.cyl item = w.totalOf rd.cyl item + min count mq ∧
    (item.stackable = true → mq < count →
      (internalMoveItem P w fromCyl toCyl₀ index₀ item count flags₀ false
        tradeItem).ret = rm ∧ rm ≠ ReturnValue.noError) ∧
    (¬(item.stackable = true ∧ mq < count) →
      (internalMoveItem P w fromCyl toCyl₀ index₀ item count flags₀ false
        tradeItem).ret = ReturnValue.noError) := by
  have htot := moveCommit_total_to P w fromCyl toCyl₀ index₀ item count flags₀ tradeItem
    rd rm mq h hrne hkf hkt hndt hti0
  have hret := moveCommit_ret P w fromCyl toCyl₀ index₀ item count flags₀ tradeItem
    rd rm mq h
  refine ⟨?_, ?_, ?_⟩
  · cases hb : item.stackable with
    | false =>
      obtain ⟨h1, h2, h3⟩ := hns hb
      rw [htot]
      simp [hb, h1, h2, h3]
    | true =>
      rw [htot]
      simp [hb]
  · intro hst hlt
    rw [hret, if_pos ⟨hst, hlt⟩]
    exact ⟨rfl, hshort hlt⟩
  · intro hn
    rw [hret, if_neg hn]
/-- Policy of the C3 witness: the destination reports an availability
of only 2 units with a not-enough-room outcome. -/
def polC3 : Policy where
  queryAdd := fun _ _ _ _ _ _ => ReturnValue.noError
  queryMaxCount := fun _ _ _ _ _ _ => (ReturnValue.notEnoughRoom, 2)
  queryRemove := fun _ _ _ _ _ => ReturnValue.noError
  queryDestination := fun w c i _ _ => (c, (w.contents c).head?, i)
  hookOnMoveItem := ReturnValue.noError
  hookOnMoveItemExchange := ReturnValue.noError

def itemC3 : ItemT := ⟨1, 2, 0, 5, true, 100, 0, false, false, true⟩

def wC3 : World := ⟨[(1, [itemC3]), (2, [])], [], [], [[], [], [], []], [], 50⟩

theorem claim_C3_witness :
    (internalMoveItem polC3 wC3 1 2 0 itemC3 5 0 false
        none).world.totalOf 2 itemC3 = wC3.totalOf 2 itemC3 + min 5 2 ∧
    (itemC3.stackable = true → 2 < 5 →
      (internalMoveItem polC3 wC3 1 2 0 itemC3 5 0 false
        none).ret = ReturnValue.notEnoughRoom ∧
        ReturnValue.notEnoughRoom ≠ ReturnValue.noError) ∧
    (¬(itemC3.stackable = true ∧ 2 < 5) →
      (internalMoveItem polC3 wC3 1 2 0 itemC3 5 0 false
        none).ret = ReturnValue.noError) :=
  claim_C3 polC3 wC3 1 2 0 itemC3 5 0 none ⟨2, none, 0, 0, 1⟩ ReturnValue.notEnoughRoom 2
    ⟨by decide, by decide, by decide, by decide, by decide, by decide, by decide⟩
    (by decide) (by decide) (by decide) (by decide)
    (by intro ti hti; simp at hti)
    (by intro hh; exact absurd hh (by decide))
    (by intro h2; decide)
/-- C1: a committed full stackable transfer of `count` units conserves
stock: the source cylinder's count of the item drops by exactly
`count`, the destination's total rises by exactly `count`, an equal
destination item is filled up to its stack limit first with any
remainder split into a fresh clone, and both affected cylinders hold
only items with counts inside `[1, stackSize]` afterwards. -/
theorem claim_C1 (P : Policy) (w : World) (fromCyl toCyl₀ : Nat) (index₀ : Int)
    (item : ItemT) (count : Nat) (flags₀ : Nat) (tradeItem : Option Nat)
    (rd : DestRes) (rm : ReturnValue) (mq : Nat)
    (h : MovePath P w fromCyl toCyl₀ index₀ item count flags₀ tradeItem rd rm mq)
    (hst : item.stackable = true) (hfull : count ≤ mq)
    (hrne : rd.cyl ≠ fromCyl) (hkf : containsCyl w fromCyl = true)
    (hkt : containsCyl w rd.cyl = true)
    (hndf : ((w.contents fromCyl).map ItemT.id).Nodup)
    (hndt : ((w.contents rd.cyl).map ItemT.id).Nodup)
    (hti0 : ∀ ti, rd.toItem = some ti → ti ∈ w.contents rd.cyl)
    (hwf_f : wfList (w.contents fromCyl)) (hwf_t : wfList (w.contents rd.cyl))
    (hmemf : item ∈ w.contents fromCyl) (hcount : count ≤ item.count)
    (hfresh : ∀ x ∈ w.contents rd.cyl, x.id ≠ w.nextId) :
    countOf ((internalMoveItem P w fromCyl toCyl₀ index₀ item count flags₀ false
        tradeItem).world.contents fromCyl) item + count =
      countOf (w.contents fromCyl) item ∧
    (internalMoveItem P w fromCyl toCyl₀ index₀ item count flags₀ false
        tradeItem).world.totalOf rd.cyl item = w.totalOf rd.cyl item + count ∧
    (∀ ti, rd.toItem = some ti → itemEquals item ti = true →
      (((internalMoveItem P w fromCyl toCyl₀ index₀ item count flags₀ false
          tradeItem).world.findIn rd.cyl ti.id).map (fun x => x.count) =
        some (ti.count + min (ti.stackSize - ti.count) count) ∧
      (min (ti.stackSize - ti.count) count < count →
        ((internalMoveItem P w fromCyl toCyl₀ index₀ item count flags₀ false
            tradeItem).world.findIn rd.cyl w.nextId).map (fun x => x.count) =
          some (count - min (ti.stackSize - ti.count) count)))) ∧
    wfList ((internalMoveItem P w fromCyl toCyl₀ index₀ item count flags₀ false
        tradeItem).world.contents fromCyl) ∧
    wfList ((internalMoveItem P w fromCyl toCyl₀ index₀ item count flags₀ false
        tradeItem).world.contents rd.cyl) := by
  have hmin : min count mq = count := min_eq_left hfull
  have hcf := moveCommit_contents_from P w fromCyl toCyl₀ index₀ item count flags₀
    tradeItem rd rm mq h hrne hkf
  rw [if_pos hst, hmin] at hcf
  have hcountOf := countOf_removeFromList_stack (w.contents fromCyl) item count
    hndf hmemf hst hcount
  have hle := le_countOf_of_mem (w.contents fromCyl) item hmemf
  refine ⟨?_, ?_, ?_, ?_, ?_⟩
  · rw [hcf, hcountOf]
    omega
  · have htot := moveCommit_total_to P w fromCyl toCyl₀ index₀ item count flags₀ tradeItem
      rd rm mq h hrne hkf hkt hndt hti0
    rw [htot, if_pos hst, hmin]
  · intro ti hto heqt
    have hmemti := hti0 ti hto
    constructor
    · have hm := moveCommit_find_merge P w fromCyl toCyl₀ index₀ item count flags₀
        tradeItem rd rm mq h hrne hkt hndt ti hto hmemti heqt hst
      rwa [hmin] at hm
    · intro hlt2
      have hc := moveCommit_find_clone P w fromCyl toCyl₀ index₀ item count flags₀
        tradeItem rd rm mq h hrne hkt hndt ti hto hmemti heqt hst hfresh
        (by rw [hmin]; exact hlt2)
      rwa [hmin] at hc
  · rw [hcf]
    exact wfList_removeFromList item.id count (w.contents fromCyl) hwf_f
  · exact moveCommit_wf_to P w fromCyl toCyl₀ index₀ item count flags₀ tradeItem
      rd rm mq h hrne hkf hkt hndt hti0 hwf_f hwf_t hmemf hcount
instance (its : List ItemT) : Decidable (wfList its) := by
  unfold wfList
  infer_instance

def itemC1 : ItemT := ⟨1, 2, 0, 5, true, 100, 0, false, false, true⟩

/-- Destination stack of the C1 witness: same type and attributes as
`itemC1`, already at 98 of 100 units, so a transfer of 5 merges 2 and
clones 3. -/
def tiC1 : ItemT := ⟨9, 2, 0, 98, true, 100, 0, false, false, true⟩

def wC1 : World := ⟨[(1, [itemC1]), (2, [tiC1])], [], [], [[], [], [], []], [], 50⟩

theorem claim_C1_witness :
    countOf ((internalMoveItem polOpen wC1 1 2 0 itemC1 5 0 false
        none).world.contents 1) itemC1 + 5 = countOf (wC1.contents 1) itemC1 ∧
    (internalMoveItem polOpen wC1 1 2 0 itemC1 5 0 false
        none).world.totalOf 2 itemC1 = wC1.totalOf 2 itemC1 + 5 ∧
    (∀ ti, (⟨2, some tiC1, 0, 0, 1⟩ : DestRes).toItem = some ti →
      itemEquals itemC1 ti = true →
      (((internalMoveItem polOpen wC1 1 2 0 itemC1 5 0 false
          none).world.findIn 2 ti.id).map (fun x => x.count) =
        some (ti.count + min (ti.stackSize - ti.count) 5) ∧
      (min (ti.stackSize - ti.count) 5 < 5 →
        ((internalMoveItem polOpen wC1 1 2 0 itemC1 5 0 false
            none).world.findIn 2 wC1.nextId).map (fun x => x.count) =
          some (5 - min (ti.stackSize - ti.count) 5)))) ∧
    wfList ((internalMoveItem polOpen wC1 1 2 0 itemC1 5 0 false
        none).world.contents 1) ∧
    wfList ((internalMoveItem polOpen wC1 1 2 0 itemC1 5 0 false
        none).world.contents 2) :=
  claim_C1 polOpen wC1 1 2 0 itemC1 5 0 none ⟨2, some tiC1, 0, 0, 1⟩
    ReturnValue.noError 5
    ⟨by decide, by decide, by decide, by decide, by decide, by decide, by decide⟩
    (by decide) (by decide) (by decide) (by decide) (by decide) (by decide) (by decide)
    (by intro ti hti; have hh : tiC1 = ti := Option.some.inj hti; subst hh; decide)
    (by decide) (by decide) (by decide) (by decide) (by decide)
end TFS
